import Mathlib

/-!
# Preconditioned conjugate gradient driver (`lib/inv_prec_cg_quda.cpp`)

A shallow embedding of `fillInnerCGInvertParam`, of the `PreconCG` constructor and of
`PreconCG::operator()`.

* Scalars (`double`) are elements of a type `𝕜` that has the operations the code uses
  (`+`, `-`, `*`, `/`, unary minus, a decidable `<`); the driver is defined for every such
  type and assumes nothing of its arithmetic.  The theorems about exact arithmetic take
  `𝕜` to be a linearly ordered field (instantiated at `ℚ` every definition is
  executable); the theorems about infinities and NaN take `𝕜` to be `Double`, the
  doubles with the special values of IEEE 754.
* A device field (`cudaColorSpinorField`) is an element of a type `V` with zero, sum,
  difference and multiplication by a scalar (a `𝕜`-module in exact arithmetic).  One
  type serves every geometry, as the one C++ class does; assigning one field to another
  (`*rPre_ptr = r`) copies the value.
* The collaborators that the file calls but does not define (operator application, the
  vector kernels, `extendCuda`, `cropCuda`, the inner solver, `sqrt`) are parameters,
  gathered in `Collaborators`, or small definitions modelled from the spec.
* The process-wide flag `globalReduce` is a component of the state, and every call that
  the claims speak about is recorded in a trace of `Event`s.
-/

set_option linter.unusedSectionVars false

namespace quda

/-! ## Solver configuration -/

/-- Modelled from the spec: the source-preservation flag (the flag governing whether the
inner solver may overwrite its input buffer).  The enumeration is declared in a header
that is not among the sources; the two constants named in `fillInnerCGInvertParam` are
kept under their names. -/
inductive QudaPreserveSource where
  | QUDA_PRESERVE_SOURCE_NO
  | QUDA_PRESERVE_SOURCE_YES
  | QUDA_PRESERVE_SOURCE_INVALID
  deriving DecidableEq, Repr

/-- Modelled from the spec: the solver kind of a configuration.  The enumeration is
declared in a header that is not among the sources; only `QUDA_CG_INVERTER` is named in
the code, every other enumerator is `other n`. -/
inductive QudaInverterType where
  | QUDA_CG_INVERTER
  | other (n : Nat)
  deriving DecidableEq, Repr

export QudaPreserveSource (QUDA_PRESERVE_SOURCE_NO QUDA_PRESERVE_SOURCE_YES)
export QudaInverterType (QUDA_CG_INVERTER)

/-- The fields of `QudaInvertParam` that `inv_prec_cg_quda.cpp` reads or writes.
Enumerations that are only copied are kept as their integer value (`Int`), as is the
precision tier, which the code only compares. -/
structure QudaInvertParam (𝕜 : Type) where
  tol : 𝕜
  maxiter : Int
  reliable_delta : 𝕜
  tol_precondition : 𝕜
  maxiter_precondition : Int
  cuda_prec : Int
  cuda_prec_sloppy : Int
  cuda_prec_precondition : Int
  cpu_prec : Int
  verbosity : Int
  iter : Int
  gflops : 𝕜
  secs : 𝕜
  true_res : 𝕜
  inv_type : QudaInverterType
  inv_type_precondition : QudaInverterType
  preserve_source : QudaPreserveSource
  domain_overlap : Fin 4 → Int
  dslash_type : Int
  solution_type : Int
  solve_type : Int
  matpc_type : Int
  dirac_order : Int
  input_location : Int
  output_location : Int
  mass : 𝕜
  dagger : Int
  mass_normalization : Int

section Config

variable {𝕜 : Type} [LinearOrderedField 𝕜]

/-- Lines 24-44: `fillInnerCGInvertParam(inner, outer)`; the result is the updated
`inner`. -/
def fillInnerCGInvertParam (inner outer : QudaInvertParam 𝕜) : QudaInvertParam 𝕜 :=
  let inner := { inner with tol := outer.tol_precondition }
  let inner := { inner with maxiter := outer.maxiter_precondition }
  -- no reliable updates within the inner solver
  let inner := { inner with reliable_delta := 1 / 10 ^ 20 }
  -- preconditioners are uni-precision solvers
  let inner := { inner with cuda_prec := outer.cuda_prec_precondition }
  let inner := { inner with cuda_prec_sloppy := outer.cuda_prec_precondition }
  let inner := { inner with verbosity := outer.verbosity }
  let inner := { inner with iter := 0 }
  let inner := { inner with gflops := 0 }
  let inner := { inner with secs := 0 }
  let inner := { inner with inv_type_precondition := QUDA_CG_INVERTER }
  if outer.inv_type = QUDA_CG_INVERTER ∧ outer.cuda_prec_sloppy ≠ outer.cuda_prec_precondition then
    { inner with preserve_source := QUDA_PRESERVE_SOURCE_NO }
  else
    { inner with preserve_source := QUDA_PRESERVE_SOURCE_YES }

/-- Lines 51-74 of the constructor `PreconCG::PreconCG`: the configuration `Kparam` that
is handed to the inner solver.  `newQudaInvertParam` (not among the sources) supplies the
starting value and is a parameter. -/
def PreconCG_Kparam (newQudaInvertParam invParam : QudaInvertParam 𝕜) : QudaInvertParam 𝕜 :=
  let Kparam := newQudaInvertParam
  let Kparam := { Kparam with domain_overlap := fun dir => invParam.domain_overlap dir }
  let Kparam := fillInnerCGInvertParam Kparam invParam
  let Kparam := { Kparam with dslash_type := invParam.dslash_type }
  let Kparam := { Kparam with inv_type := invParam.inv_type }
  let Kparam := { Kparam with solution_type := invParam.solution_type }
  let Kparam := { Kparam with solve_type := invParam.solve_type }
  let Kparam := { Kparam with matpc_type := invParam.matpc_type }
  let Kparam := { Kparam with dirac_order := invParam.dirac_order }
  let Kparam := { Kparam with input_location := invParam.input_location }
  let Kparam := { Kparam with output_location := invParam.output_location }
  let Kparam := { Kparam with mass := invParam.mass }
  let Kparam := { Kparam with dagger := invParam.dagger }
  let Kparam := { Kparam with mass_normalization := invParam.mass_normalization }
  let Kparam := { Kparam with preserve_source := invParam.preserve_source }
  let Kparam := { Kparam with cpu_prec := invParam.cpu_prec }
  let Kparam := { Kparam with cuda_prec := invParam.cuda_prec_precondition }
  let Kparam := { Kparam with cuda_prec_sloppy := invParam.cuda_prec_precondition }
  Kparam

end Config

/-! ## The driver object -/

/-- An inner solver `(*K)(x, b)`: it receives the value of the process-wide flag
`globalReduce` at the call, the initial guess `x` and the right-hand side `b`, and
returns the pair (solution written to `x`, content of `b` after the call); `b` may be
consumed when the source is not preserved. -/
abbrev InnerSolver (V : Type) := Bool → V → V → V × V

/-- The data members of `PreconCG` that `operator()` uses: the outer configuration, the
inner configuration and the inner solver pointer `K` (`none` is the null pointer). -/
structure PreconCG (𝕜 V : Type) where
  invParam : QudaInvertParam 𝕜
  Kparam : QudaInvertParam 𝕜
  K : Option (InnerSolver V)

/-- Lines 48-79: the constructor.  `SimpleCG` (not among the sources) builds the inner
solver from its configuration; the operator `matPrecon` it is built on is part of that
parameter. -/
def PreconCG.ctor {𝕜 V : Type} [LinearOrderedField 𝕜]
    (SimpleCG : QudaInvertParam 𝕜 → InnerSolver V)
    (newQudaInvertParam invParam : QudaInvertParam 𝕜) : PreconCG 𝕜 V :=
  let Kparam := PreconCG_Kparam newQudaInvertParam invParam
  { invParam := invParam, Kparam := Kparam, K := some (SimpleCG Kparam) }

/-! ## Collaborators of `operator()` -/

/-- Modelled from the spec: the domain geometry handed to extend and crop, base
dimensions `X[4]` and extended dimensions `Y[4]`.  `DecompParam` and `initDecompParam`
are not among the sources. -/
structure DecompParam where
  X : Fin 4 → Int
  Y : Fin 4 → Int

/-- Modelled from the spec: `initDecompParam(&dparam, X, Y)` records the two
geometries. -/
def initDecompParam (X Y : Fin 4 → Int) : DecompParam := { X := X, Y := Y }

/-- What `operator()` consumes and does not define.
* `mat`: `mat(out, in, tmp)` writes `mat in` to `out` (the scratch argument is not
  modelled);
* `reDotProductCuda`: the real dot product of two fields;
* `extendCuda src dparam overlap`: the field written to the destination by
  `extendCuda(dst, src, dparam, overlap)`;
* `cropCuda src dparam`: the field written to the destination by
  `cropCuda(dst, src, dparam)`;
* `sqrt`: the square root of the C library;
* `X b d`: the lattice dimension `b.X(d)` of a field. -/
structure Collaborators (𝕜 V : Type) where
  mat : V → V
  reDotProductCuda : V → V → 𝕜
  extendCuda : V → DecompParam → (Fin 4 → Int) → V
  cropCuda : V → DecompParam → V
  sqrt : 𝕜 → 𝕜
  X : V → Fin 4 → Int

/-- A call or an access to the flag `globalReduce` made by `operator()`, in program
order.  `reduction g` is a dot product or norm of the driver, `innerSolve g` an
invocation of `K`, both with the value `g` of `globalReduce` at that moment;
`setGlobalReduce g` is an assignment to the flag. -/
inductive Event where
  | matApply
  | reduction (globalReduce : Bool)
  | extendCall
  | cropCall
  | setGlobalReduce (value : Bool)
  | innerSolve (globalReduce : Bool)
  deriving DecidableEq, Repr

/-- The local variables of `operator()`, the solution field `x`, the flag
`globalReduce`, the trace of events, and `condEvals`, the number of times the loop
condition has been evaluated (a ghost counter).  `minvr`, `rPre` and `minvrPre` stand
for `*minvr_ptr`, `*rPre_ptr` and `*minvrPre_ptr`; they are written before they are read
and only when `K` is not null. -/
structure State (𝕜 V : Type) where
  x : V
  r : V
  Ap : V
  p : V
  minvr : V
  rPre : V
  minvrPre : V
  r2 : 𝕜
  src_norm : 𝕜
  stop : 𝕜
  alpha : 𝕜
  beta : 𝕜
  pAp : 𝕜
  rMinvr : 𝕜
  rMinvr_old : 𝕜
  r_new_Minvr_old : 𝕜
  r2_old : 𝕜
  k : Int
  globalReduce : Bool
  trace : List Event
  condEvals : Nat

/-- What one preconditioner application leaves behind: the three preconditioner
buffers, the flag `globalReduce` and the trace. -/
structure PreconOut (V : Type) where
  rPre : V
  minvrPre : V
  minvr : V
  globalReduce : Bool
  trace : List Event

/-- What `operator()` leaves behind: the solution field, the solver-output record
`invParam`, and the locals at the return statement. -/
structure Result (𝕜 V : Type) where
  x : V
  invParam : QudaInvertParam 𝕜
  final : State 𝕜 V

section Driver

variable {𝕜 V : Type} [Zero 𝕜] [Mul 𝕜] [Div 𝕜] [Sub 𝕜] [Neg 𝕜] [LT 𝕜]
  [DecidableRel (fun a b : 𝕜 => a < b)] [Zero V] [Add V] [Sub V] [SMul 𝕜 V]

/-- Modelled from the spec: the norm kernel `norm2` (squared 2-norm of a field), the
real dot product of the field with itself. -/
def norm2 (c : Collaborators 𝕜 V) (v : V) : 𝕜 := c.reDotProductCuda v v

/-- Modelled from the spec: the fused subtract-and-norm kernel `xmyNormCuda(x, y)`:
`y ← x − y`, returning the new `y` and its squared norm. -/
def xmyNormCuda (c : Collaborators 𝕜 V) (x y : V) : V × 𝕜 := (x - y, norm2 c (x - y))

/-- Modelled from the spec: the fused update-and-reduce kernel `axpyCGNormCuda(a, x, y)`:
`y ← a·x + y`, returning the new `y` and the real component of the returned value, the
squared norm of the new `y`. -/
def axpyCGNormCuda (c : Collaborators 𝕜 V) (a : 𝕜) (x y : V) : V × 𝕜 :=
  (a • x + y, norm2 c (a • x + y))

/-- Modelled from the spec: the fused kernel `axpyZpbxCuda(a, x, y, z, b)`:
`y ← y + a·x` and `x ← z + b·x`, returning (new `x`, new `y`). -/
def axpyZpbxCuda (a : 𝕜) (x y z : V) (b : 𝕜) : V × V := (z + b • x, y + a • x)

/-- Lines 101-106: the maximum domain overlap. -/
def maxOverlap (domain_overlap : Fin 4 → Int) : Int :=
  let max_overlap := domain_overlap 0
  let max_overlap := if domain_overlap 1 > max_overlap then domain_overlap 1 else max_overlap
  let max_overlap := if domain_overlap 2 > max_overlap then domain_overlap 2 else max_overlap
  let max_overlap := if domain_overlap 3 > max_overlap then domain_overlap 3 else max_overlap
  max_overlap

/-- Lines 109-115: the smaller sublattice dimensions `X`: `X[0] = b.X(0)*2`. -/
def baseDims (c : Collaborators 𝕜 V) (b : V) : Fin 4 → Int :=
  fun dir => if dir = 0 then c.X b 0 * 2 else c.X b dir

/-- Line 115: the extended subdomain dimensions `Y[dir] = X[dir] + 2*overlap[dir]`. -/
def extendedDims (X domain_overlap : Fin 4 → Int) : Fin 4 → Int :=
  fun dir => X dir + 2 * domain_overlap dir

/-- Lines 121-122: `dparam`. -/
def dparamOf (c : Collaborators 𝕜 V) (self : PreconCG 𝕜 V) (b : V) : DecompParam :=
  initDecompParam (baseDims c b) (extendedDims (baseDims c b) self.Kparam.domain_overlap)

/-- The preconditioner application, lines 197-218 at initialisation and lines 254-271
in the loop (the same statements), for the residual `r` and the trace so far: extend
`r` (or assign it when `max_overlap` is zero), copy the result to `minvrPre`, call the
inner solver with global reductions switched off, switch them on again, crop (or
assign) into `minvr`. -/
def applyPreconditioner (c : Collaborators 𝕜 V) (self : PreconCG 𝕜 V) (b : V)
    (K : InnerSolver V) (r : V) (trace : List Event) : PreconOut V :=
  let max_overlap := maxOverlap self.Kparam.domain_overlap
  let dparam := dparamOf c self b
  let domain_overlap : Fin 4 → Int := fun dir => self.invParam.domain_overlap dir
  -- if(max_overlap) extendCuda(*rPre_ptr,r,dparam,domain_overlap); else *rPre_ptr = r;
  let rPre := if max_overlap ≠ 0 then c.extendCuda r dparam domain_overlap else r
  let trace := if max_overlap ≠ 0 then trace ++ [Event.extendCall] else trace
  -- minvrPre_ptr = new cudaColorSpinorField(*rPre_ptr);  /  *minvrPre_ptr = *rPre_ptr;
  let minvrPre := rPre
  -- globalReduce = false;
  let globalReduce := false
  let trace := trace ++ [Event.setGlobalReduce false]
  -- (*K)(*minvrPre_ptr, *rPre_ptr);
  let out := K globalReduce minvrPre rPre
  let minvrPre := out.1
  let rPre := out.2
  let trace := trace ++ [Event.innerSolve globalReduce]
  -- globalReduce = true;
  let globalReduce := true
  let trace := trace ++ [Event.setGlobalReduce true]
  -- if(max_overlap) cropCuda(*minvr_ptr, *minvrPre_ptr, dparam); else *minvr_ptr = *minvrPre_ptr;
  let minvr := if max_overlap ≠ 0 then c.cropCuda minvrPre dparam else minvrPre
  let trace := if max_overlap ≠ 0 then trace ++ [Event.cropCall] else trace
  { rPre := rPre, minvrPre := minvrPre, minvr := minvr, globalReduce := globalReduce,
    trace := trace }

/-- Lines 89-239: everything before the loop.  `globalReduce0` is the value of the
process-wide flag when `operator()` is entered. -/
def initState (c : Collaborators 𝕜 V) (self : PreconCG 𝕜 V) (x b : V)
    (globalReduce0 : Bool) : State 𝕜 V :=
  -- cudaColorSpinorField r(b,param);  mat(r, x, y);
  let r := c.mat x
  let trace := [Event.matApply]
  -- double r2 = xmyNormCuda(b,r);
  let out := xmyNormCuda c b r
  let r := out.1
  let trace := trace ++ [Event.reduction globalReduce0]
  -- double src_norm = norm2(b);  (line 229)
  let src_norm := norm2 c b
  -- double stop = src_norm*invParam.tol*invParam.tol;
  let stop := src_norm * self.invParam.tol * self.invParam.tol
  match self.K with
  | some K =>
    -- lines 175-218
    let pre := applyPreconditioner c self b K r trace
    -- src_norm = norm2(b);  r2 = norm2(r);  rMinvr = reDotProductCuda(r,*minvr_ptr);
    let trace := pre.trace ++ [Event.reduction pre.globalReduce,
      Event.reduction pre.globalReduce, Event.reduction pre.globalReduce]
    -- p_ptr = new cudaColorSpinorField(*minvr_ptr);  int k=0;
    { x := x, r := r, Ap := 0, p := pre.minvr, minvr := pre.minvr, rPre := pre.rPre,
      minvrPre := pre.minvrPre, r2 := norm2 c r, src_norm := src_norm, stop := stop,
      alpha := 0, beta := 0, pAp := 0, rMinvr := c.reDotProductCuda r pre.minvr,
      rMinvr_old := 0, r_new_Minvr_old := 0, r2_old := 0, k := 0,
      globalReduce := pre.globalReduce, trace := trace, condEvals := 0 }
  | none =>
    -- src_norm = norm2(b);  r2 = norm2(r);
    let trace := trace ++ [Event.reduction globalReduce0, Event.reduction globalReduce0]
    -- p_ptr = new cudaColorSpinorField(r);  int k=0;
    { x := x, r := r, Ap := 0, p := r, minvr := 0, rPre := 0, minvrPre := 0,
      r2 := norm2 c r, src_norm := src_norm, stop := stop,
      alpha := 0, beta := 0, pAp := 0, rMinvr := 0,
      rMinvr_old := 0, r_new_Minvr_old := 0, r2_old := 0, k := 0,
      globalReduce := globalReduce0, trace := trace, condEvals := 0 }

/-- Line 241: the loop condition `r2 > stop && k < invParam.maxiter`. -/
def loopCond (self : PreconCG 𝕜 V) (s : State 𝕜 V) : Bool :=
  decide (s.r2 > s.stop) && decide (s.k < self.invParam.maxiter)

/-- Lines 242-289: one pass through the loop body. -/
def loopBody (c : Collaborators 𝕜 V) (self : PreconCG 𝕜 V) (b : V) (s : State 𝕜 V) :
    State 𝕜 V :=
  -- mat(Ap, *p_ptr, tmp);
  let Ap := c.mat s.p
  -- pAp = reDotProductCuda(*p_ptr,Ap);
  let pAp := c.reDotProductCuda s.p Ap
  -- alpha = (K) ? rMinvr/pAp : r2/pAp;
  let alpha := if self.K.isSome then s.rMinvr / pAp else s.r2 / pAp
  -- Complex cg_norm = axpyCGNormCuda(-alpha, Ap, r);
  let out := axpyCGNormCuda c (-alpha) Ap s.r
  let r := out.1
  let cg_norm := out.2
  let trace := s.trace ++
    [Event.matApply, Event.reduction s.globalReduce, Event.reduction s.globalReduce]
  match self.K with
  | some K =>
    -- rMinvr_old = rMinvr;
    let rMinvr_old := s.rMinvr
    -- r_new_Minvr_old = reDotProductCuda(r,*minvr_ptr);
    let r_new_Minvr_old := c.reDotProductCuda r s.minvr
    let trace := trace ++ [Event.reduction s.globalReduce]
    -- lines 254-271
    let pre := applyPreconditioner c self b K r trace
    -- rMinvr = reDotProductCuda(r,*minvr_ptr);
    let rMinvr := c.reDotProductCuda r pre.minvr
    let trace := pre.trace ++ [Event.reduction pre.globalReduce]
    -- beta = (rMinvr - r_new_Minvr_old)/rMinvr_old;
    let beta := (rMinvr - r_new_Minvr_old) / rMinvr_old
    -- r2 = real(cg_norm);
    let r2 := cg_norm
    -- axpyZpbxCuda(alpha, *p_ptr, x, *minvr_ptr, beta);
    let upd := axpyZpbxCuda alpha s.p s.x pre.minvr beta
    -- ++k;
    { s with
      x := upd.2, r := r, Ap := Ap, p := upd.1, minvr := pre.minvr, rPre := pre.rPre,
      minvrPre := pre.minvrPre, r2 := r2, alpha := alpha, beta := beta, pAp := pAp,
      rMinvr := rMinvr, rMinvr_old := rMinvr_old, r_new_Minvr_old := r_new_Minvr_old,
      k := s.k + 1, globalReduce := pre.globalReduce, trace := trace }
  | none =>
    -- r2_old = r2;
    let r2_old := s.r2
    -- r2 = real(cg_norm);
    let r2 := cg_norm
    -- beta = r2/r2_old;
    let beta := r2 / r2_old
    -- axpyZpbxCuda(alpha, *p_ptr, x, r, beta);
    let upd := axpyZpbxCuda alpha s.p s.x r beta
    -- ++k;
    { s with
      x := upd.2, r := r, Ap := Ap, p := upd.1, r2 := r2, alpha := alpha, beta := beta,
      pAp := pAp, r2_old := r2_old, k := s.k + 1, trace := trace }

/-- Lines 241-290: the loop.  One unit of fuel is spent on each evaluation of the
condition; `none` means that the fuel ran out before the condition became false. -/
def whileLoop (c : Collaborators 𝕜 V) (self : PreconCG 𝕜 V) (b : V) :
    Nat → State 𝕜 V → Option (State 𝕜 V)
  | 0, _ => none
  | fuel + 1, s =>
    let s : State 𝕜 V := { s with condEvals := s.condEvals + 1 }
    if loopCond self s then whileLoop c self b fuel (loopBody c self b s) else some s

/-- Lines 293-296: the true residual and the value written to `invParam.true_res`. -/
def finish (c : Collaborators 𝕜 V) (self : PreconCG 𝕜 V) (b : V) (s : State 𝕜 V) :
    Result 𝕜 V :=
  -- mat(r, x, y);
  let r := c.mat s.x
  -- double true_res = xmyNormCuda(b, r);
  let out := xmyNormCuda c b r
  let r := out.1
  let true_res := out.2
  let trace := s.trace ++ [Event.matApply, Event.reduction s.globalReduce]
  -- invParam.true_res = sqrt(true_res / src_norm);
  { x := s.x,
    invParam := { self.invParam with true_res := c.sqrt (true_res / s.src_norm) },
    final := { s with r := r, trace := trace } }

/-- Lines 86-308: `PreconCG::operator()(x, b)`, entered with the flag `globalReduce`
equal to `globalReduce0`, the loop being given `fuel` evaluations of its condition. -/
def PreconCG.solve (c : Collaborators 𝕜 V) (self : PreconCG 𝕜 V) (fuel : Nat) (x b : V)
    (globalReduce0 : Bool) : Option (Result 𝕜 V) :=
  (whileLoop c self b fuel (initState c self x b globalReduce0)).map (finish c self b)

/-- The state after `j` passes through the loop body, started from `s`. -/
def iterState (c : Collaborators 𝕜 V) (self : PreconCG 𝕜 V) (b : V) (s : State 𝕜 V) :
    Nat → State 𝕜 V
  | 0 => s
  | j + 1 => loopBody c self b (iterState c self b s j)

end Driver

/-! ## Dense reference operators and concrete configurations -/

/-- A configuration with every field zero, solver kind `other 0` and the source
preserved. -/
def zeroParam (𝕜 : Type) [Zero 𝕜] : QudaInvertParam 𝕜 :=
  { tol := 0, maxiter := 0, reliable_delta := 0, tol_precondition := 0,
    maxiter_precondition := 0, cuda_prec := 0, cuda_prec_sloppy := 0,
    cuda_prec_precondition := 0, cpu_prec := 0, verbosity := 0, iter := 0, gflops := 0,
    secs := 0, true_res := 0, inv_type := QudaInverterType.other 0,
    inv_type_precondition := QudaInverterType.other 0,
    preserve_source := QUDA_PRESERVE_SOURCE_YES, domain_overlap := fun _ => 0,
    dslash_type := 0, solution_type := 0, solve_type := 0, matpc_type := 0,
    dirac_order := 0, input_location := 0, output_location := 0, mass := 0, dagger := 0,
    mass_normalization := 0 }

/-- An outer configuration whose sloppy precision (4) differs from its preconditioning
precision (2), of solver kind `other 0`, with the source preserved. -/
def mixedPrecParam : QudaInvertParam ℚ :=
  { zeroParam ℚ with cuda_prec := 8, cuda_prec_sloppy := 4, cuda_prec_precondition := 2 }

/-- Collaborators on one-component fields: the operator is the identity, the dot
product is the product, extend and crop copy. -/
def scalarCollab {𝕜 : Type} [Mul 𝕜] (sqrt : 𝕜 → 𝕜) : Collaborators 𝕜 𝕜 :=
  { mat := fun v => v, reDotProductCuda := fun v w => v * w,
    extendCuda := fun v _ _ => v, cropCuda := fun v _ => v, sqrt := sqrt,
    X := fun _ _ => 1 }

/-- The dense reference: fields are vectors with `n` real components, the operator is
multiplication by the matrix `M`, the dot product is the Euclidean one.  Everything
else is taken from `base`. -/
def denseCollab {𝕜 : Type} [LinearOrderedField 𝕜] {n : Nat} (M : Matrix (Fin n) (Fin n) 𝕜)
    (base : Collaborators 𝕜 (Fin n → 𝕜)) : Collaborators 𝕜 (Fin n → 𝕜) :=
  { base with
    mat := fun v => M.mulVec v, reDotProductCuda := fun v w => Matrix.dotProduct v w }

/-- Collaborators on `n`-component fields whose operator is the identity and whose
extend and crop copy; the `base` handed to `denseCollab` in the examples. -/
def copyCollab (𝕜 : Type) [LinearOrderedField 𝕜] (n : Nat) : Collaborators 𝕜 (Fin n → 𝕜) :=
  { mat := fun v => v, reDotProductCuda := fun v w => Matrix.dotProduct v w,
    extendCuda := fun v _ _ => v, cropCuda := fun v _ => v, sqrt := fun y => y,
    X := fun _ _ => 1 }

/-- A driver object without preconditioner (`K` null) with the given outer tolerance
and iteration limit, every other field of the configuration as in `zeroParam`. -/
def plainCG (𝕜 V : Type) [Zero 𝕜] (tol : 𝕜) (maxiter : Int) : PreconCG 𝕜 V :=
  { invParam := { zeroParam 𝕜 with tol := tol, maxiter := maxiter },
    Kparam := zeroParam 𝕜, K := none }

/-- A driver object with inner solver `K`, zero overlap, and the given outer tolerance
and iteration limit. -/
def preconCG (𝕜 : Type) {V : Type} [Zero 𝕜] (K : InnerSolver V) (tol : 𝕜)
    (maxiter : Int) : PreconCG 𝕜 V :=
  { invParam := { zeroParam 𝕜 with tol := tol, maxiter := maxiter },
    Kparam := zeroParam 𝕜, K := some K }

/-- The inner solver that returns its right-hand side: the exact solve for the identity
operator, and the result of an inner solve that stops at its initial guess. -/
def copySolver (V : Type) : InnerSolver V := fun _ _ b => (b, b)

/-- `M` is symmetric positive definite: `Mᵀ = M` and `⟨v, M v⟩ > 0` for `v ≠ 0`. -/
def IsSPD {𝕜 : Type} [LinearOrderedField 𝕜] {n : Nat} (M : Matrix (Fin n) (Fin n) 𝕜) : Prop :=
  M.transpose = M ∧ ∀ v : Fin n → 𝕜, v ≠ 0 → 0 < Matrix.dotProduct v (M.mulVec v)

/-- The energy of an iterate, `E(x) = ½⟨x, M x⟩ − ⟨b, x⟩`; up to the constant
`½⟨b, M⁻¹ b⟩` it is half the squared `M`-norm of the error. -/
def energy {𝕜 : Type} [LinearOrderedField 𝕜] {n : Nat} (M : Matrix (Fin n) (Fin n) 𝕜)
    (b x : Fin n → 𝕜) : 𝕜 :=
  Matrix.dotProduct x (M.mulVec x) / 2 - Matrix.dotProduct b x

/-- The symmetric positive definite matrix `diag(1, 5, 10)`. -/
def diag3 : Matrix (Fin 3) (Fin 3) ℚ := Matrix.diagonal ![1, 5, 10]

/-- The right-hand side `(5, 9, 2)`. -/
def rhs3 : Fin 3 → ℚ := ![5, 9, 2]

/-- The state after `j` passes of the solver without inner solver for `diag3`, `rhs3`,
`x = 0`, `tol = 1e-10` and `maxiter = 50`. -/
def plainRun3 (j : Nat) : State ℚ (Fin 3 → ℚ) :=
  iterState (denseCollab diag3 (copyCollab ℚ 3)) (plainCG ℚ (Fin 3 → ℚ) (1 / 10 ^ 10) 50) rhs3
    (initState (denseCollab diag3 (copyCollab ℚ 3)) (plainCG ℚ (Fin 3 → ℚ) (1 / 10 ^ 10) 50)
      0 rhs3 true) j

/-- The state after `j` passes of the solver with the inner solver `copySolver` and
zero overlap for `diag3`, `rhs3`, `x = 0`, `tol = 1e-10` and `maxiter = 50`. -/
def preconRun3 (j : Nat) : State ℚ (Fin 3 → ℚ) :=
  iterState (denseCollab diag3 (copyCollab ℚ 3))
    (preconCG ℚ (copySolver (Fin 3 → ℚ)) (1 / 10 ^ 10) 50) rhs3
    (initState (denseCollab diag3 (copyCollab ℚ 3))
      (preconCG ℚ (copySolver (Fin 3 → ℚ)) (1 / 10 ^ 10) 50) 0 rhs3 true) j

/-- The symmetric positive definite matrix `diag(1, 2, 3, 4)`. -/
def diag4 : Matrix (Fin 4) (Fin 4) ℚ := Matrix.diagonal ![1, 2, 3, 4]

/-- The right-hand side `(1, 1, 1, 1)`. -/
def rhs4 : Fin 4 → ℚ := ![1, 1, 1, 1]

/-- The backward difference matrix `B` with `n` rows: `1` on the diagonal, `-1` just
below it, so that `(B v) i = v i − v (i − 1)` (and `(B v) 0 = v 0`). -/
def diffMatrix (n : Nat) : Matrix (Fin n) (Fin n) ℚ :=
  Matrix.of fun i j => if j = i then 1 else if j.val + 1 = i.val then -1 else 0

/-- The matrix `Bᵀ B` for the difference matrix `B`: tridiagonal, with `-1` next to the
diagonal and `2` on the diagonal except for the last entry, which is `1`.  It is
symmetric positive definite. -/
def chainMatrix (n : Nat) : Matrix (Fin n) (Fin n) ℚ :=
  (diffMatrix n).transpose * diffMatrix n

/-- The first unit vector with 51 components. -/
def firstUnit : Fin 51 → ℚ := fun i => if i.val = 0 then 1 else 0

/-- The state after `j` passes of the solver without inner solver for `chainMatrix 51`,
`b = firstUnit`, `x = 0`, `tol = 1e-10` and `maxiter = 50`. -/
def chainRun (j : Nat) : State ℚ (Fin 51 → ℚ) :=
  iterState (denseCollab (chainMatrix 51) (copyCollab ℚ 51))
    (plainCG ℚ (Fin 51 → ℚ) (1 / 10 ^ 10) 50) firstUnit
    (initState (denseCollab (chainMatrix 51) (copyCollab ℚ 51))
      (plainCG ℚ (Fin 51 → ℚ) (1 / 10 ^ 10) 50) 0 firstUnit true) j

/-- The residual of `chainRun k` in closed form: `1/(k+1)` at index `k`, zero
elsewhere. -/
def chainResidual (k : Nat) : Nat → ℚ := fun m => if m = k then 1 / (k + 1) else 0

/-- The search direction of `chainRun k` in closed form: `(m+1)/(k+1)²` at the indices
`m ≤ k`, zero beyond. -/
def chainDirection (k : Nat) : Nat → ℚ := fun m => if m ≤ k then (m + 1) / (k + 1) ^ 2 else 0

/-! ## Scope of the global-reduction flag -/

/-- Where a replay of the trace stands with respect to the flag `globalReduce`:
`on`, the flag is true; `off`, the flag has been set to false and the inner solver has
not been called yet; `returned`, the inner solver has returned and the flag is still
false. -/
inductive FlagMode where
  | on
  | off
  | returned
  deriving DecidableEq, Repr

/-- One event of the trace, replayed: with the flag on, the driver may apply the
operator, extend, crop and reduce (the reduction must have seen the flag true), or
switch the flag off; with the flag off the only thing that may happen is the call of
the inner solver, which must see the flag false; when the inner solver has returned the
only thing that may happen is switching the flag on again.  Everything else is a
violation (`none`). -/
def flagStep : FlagMode → Event → Option FlagMode
  | FlagMode.on, Event.matApply => some FlagMode.on
  | FlagMode.on, Event.reduction true => some FlagMode.on
  | FlagMode.on, Event.extendCall => some FlagMode.on
  | FlagMode.on, Event.cropCall => some FlagMode.on
  | FlagMode.on, Event.setGlobalReduce false => some FlagMode.off
  | FlagMode.off, Event.innerSolve false => some FlagMode.returned
  | FlagMode.returned, Event.setGlobalReduce true => some FlagMode.on
  | _, _ => none

/-- Replay of a whole trace from a mode; `none` as soon as an event violates the scope
of the flag. -/
def replayFlag : FlagMode → List Event → Option FlagMode
  | m, [] => some m
  | m, e :: l => (flagStep m e).bind fun m' => replayFlag m' l

/-! ## Doubles with the special values -/

/-- The values of a C++ `double` as far as the special values of IEEE 754 arithmetic
are concerned: a finite value, `+∞`, `−∞` or NaN.  Finite values are rationals and the
arithmetic on them is exact; rounding, overflow and the sign of zero are not modelled
(a zero divisor counts as `+0`). -/
inductive Double where
  | fin (q : ℚ)
  | pinf
  | ninf
  | nan
  deriving DecidableEq

/-- Unary minus of doubles. -/
def Double.neg : Double → Double
  | Double.fin a => Double.fin (-a)
  | Double.pinf => Double.ninf
  | Double.ninf => Double.pinf
  | Double.nan => Double.nan

/-- Sum of doubles: `∞ + (−∞)` is NaN, NaN propagates. -/
def Double.add : Double → Double → Double
  | Double.fin a, Double.fin b => Double.fin (a + b)
  | Double.fin _, Double.pinf => Double.pinf
  | Double.fin _, Double.ninf => Double.ninf
  | Double.pinf, Double.fin _ => Double.pinf
  | Double.pinf, Double.pinf => Double.pinf
  | Double.pinf, Double.ninf => Double.nan
  | Double.ninf, Double.fin _ => Double.ninf
  | Double.ninf, Double.pinf => Double.nan
  | Double.ninf, Double.ninf => Double.ninf
  | Double.nan, _ => Double.nan
  | _, Double.nan => Double.nan

/-- Difference of doubles, `a + (−b)`. -/
def Double.sub (a b : Double) : Double := Double.add a (Double.neg b)

/-- Product of doubles: `0 · ±∞` is NaN, NaN propagates. -/
def Double.mul : Double → Double → Double
  | Double.fin a, Double.fin b => Double.fin (a * b)
  | Double.fin a, Double.pinf =>
    if a = 0 then Double.nan else if 0 < a then Double.pinf else Double.ninf
  | Double.fin a, Double.ninf =>
    if a = 0 then Double.nan else if 0 < a then Double.ninf else Double.pinf
  | Double.pinf, Double.fin b =>
    if b = 0 then Double.nan else if 0 < b then Double.pinf else Double.ninf
  | Double.ninf, Double.fin b =>
    if b = 0 then Double.nan else if 0 < b then Double.ninf else Double.pinf
  | Double.pinf, Double.pinf => Double.pinf
  | Double.pinf, Double.ninf => Double.ninf
  | Double.ninf, Double.pinf => Double.ninf
  | Double.ninf, Double.ninf => Double.pinf
  | Double.nan, _ => Double.nan
  | _, Double.nan => Double.nan

/-- Quotient of doubles: a non-zero finite value divided by zero is `±∞`, `0/0` and
`±∞/±∞` are NaN, a finite value divided by `±∞` is zero, NaN propagates. -/
def Double.div : Double → Double → Double
  | Double.fin a, Double.fin b =>
    if b = 0 then
      if a = 0 then Double.nan else if 0 < a then Double.pinf else Double.ninf
    else Double.fin (a / b)
  | Double.fin _, Double.pinf => Double.fin 0
  | Double.fin _, Double.ninf => Double.fin 0
  | Double.pinf, Double.fin b => if 0 ≤ b then Double.pinf else Double.ninf
  | Double.ninf, Double.fin b => if 0 ≤ b then Double.ninf else Double.pinf
  | Double.pinf, Double.pinf => Double.nan
  | Double.pinf, Double.ninf => Double.nan
  | Double.ninf, Double.pinf => Double.nan
  | Double.ninf, Double.ninf => Double.nan
  | Double.nan, _ => Double.nan
  | _, Double.nan => Double.nan

/-- The comparison `a < b` of doubles; false as soon as one side is NaN. -/
def Double.lt : Double → Double → Bool
  | Double.fin a, Double.fin b => decide (a < b)
  | Double.fin _, Double.pinf => true
  | Double.ninf, Double.fin _ => true
  | Double.ninf, Double.pinf => true
  | _, _ => false

/-- The comparison `a <= b` of doubles; false as soon as one side is NaN. -/
def Double.le : Double → Double → Bool
  | Double.fin a, Double.fin b => decide (a ≤ b)
  | Double.fin _, Double.pinf => true
  | Double.ninf, Double.fin _ => true
  | Double.ninf, Double.pinf => true
  | Double.pinf, Double.pinf => true
  | Double.ninf, Double.ninf => true
  | _, _ => false

/-- The square root of the C library on doubles: NaN for NaN, for `−∞` and for negative
values, `+∞` for `+∞`; on the non-negative finite values it is `root`. -/
def Double.sqrt (root : ℚ → ℚ) : Double → Double
  | Double.fin a => if a < 0 then Double.nan else Double.fin (root a)
  | Double.pinf => Double.pinf
  | Double.ninf => Double.nan
  | Double.nan => Double.nan

instance : Zero Double := ⟨Double.fin 0⟩

instance : Neg Double := ⟨Double.neg⟩

instance : Add Double := ⟨Double.add⟩

instance : Sub Double := ⟨Double.sub⟩

instance : Mul Double := ⟨Double.mul⟩

instance : Div Double := ⟨Double.div⟩

instance : LT Double := ⟨fun a b => Double.lt a b = true⟩

instance : LE Double := ⟨fun a b => Double.le a b = true⟩

instance : DecidableRel (fun a b : Double => a < b) :=
  fun a b => inferInstanceAs (Decidable (Double.lt a b = true))

instance : DecidableRel (fun a b : Double => a ≤ b) :=
  fun a b => inferInstanceAs (Decidable (Double.le a b = true))

/-- Collaborators on one-component fields of doubles: the operator multiplies by `A`,
the dot product is the product, extend and crop copy, and `sqrt` is `Double.sqrt root`. -/
def doubleCollab (A : Double) (root : ℚ → ℚ) : Collaborators Double Double :=
  { mat := fun v => A * v, reDotProductCuda := fun v w => v * w,
    extendCuda := fun v _ _ => v, cropCuda := fun v _ => v, sqrt := Double.sqrt root,
    X := fun _ _ => 1 }

end quda

namespace quda

/-! ## Structural facts about the driver -/

section DriverFacts

variable {𝕜 V : Type} [Zero 𝕜] [Mul 𝕜] [Div 𝕜] [Sub 𝕜] [Neg 𝕜] [LT 𝕜]
  [DecidableRel (fun a b : 𝕜 => a < b)] [Zero V] [Add V] [Sub V] [SMul 𝕜 V]

theorem maxOverlap_zero (ov : Fin 4 → Int) (h : ∀ dir, ov dir = 0) : maxOverlap ov = 0 := by
  simp [maxOverlap, h]

/-- With zero `max_overlap` the preconditioner application assigns, calls the inner
solver on two copies of `r` with the flag off, and assigns again. -/
theorem applyPreconditioner_bypass (c : Collaborators 𝕜 V) (self : PreconCG 𝕜 V) (b : V)
    (K : InnerSolver V) (r : V) (trace : List Event)
    (h0 : maxOverlap self.Kparam.domain_overlap = 0) :
    applyPreconditioner c self b K r trace =
      { rPre := (K false r r).2, minvrPre := (K false r r).1, minvr := (K false r r).1,
        globalReduce := true,
        trace := trace ++ [Event.setGlobalReduce false, Event.innerSolve false,
          Event.setGlobalReduce true] } := by
  simp [applyPreconditioner, h0]

theorem loopCond_condEvals (self : PreconCG 𝕜 V) (s : State 𝕜 V) (n : Nat) :
    loopCond self { s with condEvals := n } = loopCond self s := rfl

theorem loopBody_condEvals (c : Collaborators 𝕜 V) (self : PreconCG 𝕜 V) (b : V)
    (s : State 𝕜 V) (n : Nat) :
    loopBody c self b { s with condEvals := n }
      = { loopBody c self b s with condEvals := n } := by
  unfold loopBody
  cases self.K <;> rfl

theorem loopBody_k (c : Collaborators 𝕜 V) (self : PreconCG 𝕜 V) (b : V) (s : State 𝕜 V) :
    (loopBody c self b s).k = s.k + 1 := by
  unfold loopBody
  cases self.K <;> rfl

theorem loopBody_stop (c : Collaborators 𝕜 V) (self : PreconCG 𝕜 V) (b : V) (s : State 𝕜 V) :
    (loopBody c self b s).stop = s.stop := by
  unfold loopBody
  cases self.K <;> rfl

theorem loopBody_src_norm (c : Collaborators 𝕜 V) (self : PreconCG 𝕜 V) (b : V)
    (s : State 𝕜 V) : (loopBody c self b s).src_norm = s.src_norm := by
  unfold loopBody
  cases self.K <;> rfl

theorem iterState_succ_shift (c : Collaborators 𝕜 V) (self : PreconCG 𝕜 V) (b : V)
    (s : State 𝕜 V) (j : Nat) :
    iterState c self b s (j + 1) = iterState c self b (loopBody c self b s) j := by
  induction j with
  | zero => rfl
  | succ j ih => simp only [iterState] at ih ⊢; rw [ih]

theorem iterState_condEvals (c : Collaborators 𝕜 V) (self : PreconCG 𝕜 V) (b : V)
    (s : State 𝕜 V) (n j : Nat) :
    iterState c self b { s with condEvals := n } j
      = { iterState c self b s j with condEvals := n } := by
  induction j with
  | zero => rfl
  | succ j ih => simp only [iterState]; rw [ih, loopBody_condEvals]

theorem iterState_k (c : Collaborators 𝕜 V) (self : PreconCG 𝕜 V) (b : V) (s : State 𝕜 V)
    (j : Nat) : (iterState c self b s j).k = s.k + j := by
  induction j with
  | zero => simp [iterState]
  | succ j ih => simp only [iterState, loopBody_k, ih]; push_cast; ring

theorem iterState_stop (c : Collaborators 𝕜 V) (self : PreconCG 𝕜 V) (b : V)
    (s : State 𝕜 V) (j : Nat) : (iterState c self b s j).stop = s.stop := by
  induction j with
  | zero => rfl
  | succ j ih => simp only [iterState, loopBody_stop, ih]

theorem iterState_src_norm (c : Collaborators 𝕜 V) (self : PreconCG 𝕜 V) (b : V)
    (s : State 𝕜 V) (j : Nat) : (iterState c self b s j).src_norm = s.src_norm := by
  induction j with
  | zero => rfl
  | succ j ih => simp only [iterState, loopBody_src_norm, ih]

/-- If the condition holds after each of the first `j` passes and fails after pass `j`,
the loop returns the state after `j` passes, having evaluated its condition `j + 1`
times, whenever it is given more than `j` units of fuel. -/
theorem whileLoop_run (c : Collaborators 𝕜 V) (self : PreconCG 𝕜 V) (b : V) :
    ∀ (j fuel : Nat) (s : State 𝕜 V), j < fuel →
      (∀ i, i < j → loopCond self (iterState c self b s i) = true) →
      loopCond self (iterState c self b s j) = false →
      whileLoop c self b fuel s
        = some { iterState c self b s j with condEvals := s.condEvals + (j + 1) } := by
  intro j
  induction j with
  | zero =>
    intro fuel s hlt _ hstop
    obtain ⟨f, rfl⟩ : ∃ f, fuel = f + 1 := ⟨fuel - 1, by omega⟩
    simp only [iterState] at hstop
    simp [whileLoop, loopCond_condEvals, hstop, iterState]
  | succ j ih =>
    intro fuel s hlt hrun hstop
    obtain ⟨f, rfl⟩ : ∃ f, fuel = f + 1 := ⟨fuel - 1, by omega⟩
    have h0 : loopCond self s = true := hrun 0 (Nat.succ_pos j)
    have hrun1 : ∀ i, i < j → loopCond self
        (iterState c self b (loopBody c self b { s with condEvals := s.condEvals + 1 }) i)
          = true := by
      intro i hi
      rw [loopBody_condEvals, iterState_condEvals, loopCond_condEvals,
        ← iterState_succ_shift]
      exact hrun (i + 1) (Nat.succ_lt_succ hi)
    have hstop1 : loopCond self
        (iterState c self b (loopBody c self b { s with condEvals := s.condEvals + 1 }) j)
          = false := by
      rw [loopBody_condEvals, iterState_condEvals, loopCond_condEvals,
        ← iterState_succ_shift]
      exact hstop
    have := ih f _ (Nat.lt_of_succ_lt_succ hlt) hrun1 hstop1
    simp only [whileLoop, loopCond_condEvals, h0, if_true]
    rw [this, loopBody_condEvals, iterState_condEvals, iterState_succ_shift]
    simp only [Option.some.injEq]
    congr 1
    show s.condEvals + 1 + (j + 1) = s.condEvals + (j + 1 + 1)
    omega

/-- The loop condition fails after at most `maxiter - k` passes: there is a first pass
count `j` at which the condition is false. -/
theorem exists_exit (c : Collaborators 𝕜 V) (self : PreconCG 𝕜 V) (b : V) (s : State 𝕜 V) :
    ∃ j, j ≤ (self.invParam.maxiter - s.k).toNat ∧
      (∀ i, i < j → loopCond self (iterState c self b s i) = true) ∧
      loopCond self (iterState c self b s j) = false := by
  classical
  have hex : ∃ j, loopCond self (iterState c self b s j) = false := by
    refine ⟨(self.invParam.maxiter - s.k).toNat, ?_⟩
    have hk := iterState_k c self b s (self.invParam.maxiter - s.k).toNat
    have : ¬ (iterState c self b s (self.invParam.maxiter - s.k).toNat).k
        < self.invParam.maxiter := by
      rw [hk]; omega
    simp [loopCond, this]
  refine ⟨Nat.find hex, ?_, ?_, Nat.find_spec hex⟩
  · apply Nat.find_min'
    have hk := iterState_k c self b s (self.invParam.maxiter - s.k).toNat
    have : ¬ (iterState c self b s (self.invParam.maxiter - s.k).toNat).k
        < self.invParam.maxiter := by
      rw [hk]; omega
    simp [loopCond, this]
  · intro i hi
    have := Nat.find_min hex hi
    simpa using this

end DriverFacts

/-! ## Inner configuration -/

section ConfigTheorems

variable {𝕜 : Type} [LinearOrderedField 𝕜]

/-- C9.  `fillInnerCGInvertParam` sets `inner.tol = outer.tol_precondition`,
`inner.maxiter = outer.maxiter_precondition` and
`inner.cuda_prec = inner.cuda_prec_sloppy = outer.cuda_prec_precondition`; the same four
equalities hold of the `Kparam` of the constructor; and the four fields, of both, are
unchanged when `outer.tol`, `outer.maxiter`, `outer.cuda_prec` and
`outer.cuda_prec_sloppy` are replaced by arbitrary values. -/
theorem inner_configuration_transform (newQudaInvertParam inner outer : QudaInvertParam 𝕜)
    (t : 𝕜) (m p q : Int) :
    ((fillInnerCGInvertParam inner outer).tol = outer.tol_precondition ∧
      (fillInnerCGInvertParam inner outer).maxiter = outer.maxiter_precondition ∧
      (fillInnerCGInvertParam inner outer).cuda_prec = outer.cuda_prec_precondition ∧
      (fillInnerCGInvertParam inner outer).cuda_prec_sloppy = outer.cuda_prec_precondition) ∧
    ((PreconCG_Kparam newQudaInvertParam outer).tol = outer.tol_precondition ∧
      (PreconCG_Kparam newQudaInvertParam outer).maxiter = outer.maxiter_precondition ∧
      (PreconCG_Kparam newQudaInvertParam outer).cuda_prec = outer.cuda_prec_precondition ∧
      (PreconCG_Kparam newQudaInvertParam outer).cuda_prec_sloppy
        = outer.cuda_prec_precondition) ∧
    ((fillInnerCGInvertParam inner
          { outer with tol := t, maxiter := m, cuda_prec := p, cuda_prec_sloppy := q }).tol
        = (fillInnerCGInvertParam inner outer).tol ∧
      (fillInnerCGInvertParam inner
          { outer with tol := t, maxiter := m, cuda_prec := p, cuda_prec_sloppy := q }).maxiter
        = (fillInnerCGInvertParam inner outer).maxiter ∧
      (fillInnerCGInvertParam inner
          { outer with tol := t, maxiter := m, cuda_prec := p, cuda_prec_sloppy := q }).cuda_prec
        = (fillInnerCGInvertParam inner outer).cuda_prec ∧
      (fillInnerCGInvertParam inner
          { outer with tol := t, maxiter := m, cuda_prec := p,
                       cuda_prec_sloppy := q }).cuda_prec_sloppy
        = (fillInnerCGInvertParam inner outer).cuda_prec_sloppy) ∧
    ((PreconCG_Kparam newQudaInvertParam
          { outer with tol := t, maxiter := m, cuda_prec := p, cuda_prec_sloppy := q }).tol
        = (PreconCG_Kparam newQudaInvertParam outer).tol ∧
      (PreconCG_Kparam newQudaInvertParam
          { outer with tol := t, maxiter := m, cuda_prec := p, cuda_prec_sloppy := q }).maxiter
        = (PreconCG_Kparam newQudaInvertParam outer).maxiter ∧
      (PreconCG_Kparam newQudaInvertParam
          { outer with tol := t, maxiter := m, cuda_prec := p, cuda_prec_sloppy := q }).cuda_prec
        = (PreconCG_Kparam newQudaInvertParam outer).cuda_prec ∧
      (PreconCG_Kparam newQudaInvertParam
          { outer with tol := t, maxiter := m, cuda_prec := p,
                       cuda_prec_sloppy := q }).cuda_prec_sloppy
        = (PreconCG_Kparam newQudaInvertParam outer).cuda_prec_sloppy) := by
  refine ⟨⟨?_, ?_, ?_, ?_⟩, ⟨?_, ?_, ?_, ?_⟩, ⟨?_, ?_, ?_, ?_⟩, ⟨?_, ?_, ?_, ?_⟩⟩ <;>
    simp only [fillInnerCGInvertParam, PreconCG_Kparam] <;> split_ifs <;> rfl

/-- C10, as the code has it.  `fillInnerCGInvertParam` sets
`inner.preserve_source = QUDA_PRESERVE_SOURCE_NO` exactly when
`outer.inv_type == QUDA_CG_INVERTER` and `outer.cuda_prec_sloppy` differs from
`outer.cuda_prec_precondition`, and `QUDA_PRESERVE_SOURCE_YES` in every other case: the
flag is a function of the outer solver kind and of the precision comparison. -/
theorem fillInner_preserve_source (inner outer : QudaInvertParam 𝕜) :
    (fillInnerCGInvertParam inner outer).preserve_source =
      if outer.inv_type = QUDA_CG_INVERTER ∧
          outer.cuda_prec_sloppy ≠ outer.cuda_prec_precondition then
        QUDA_PRESERVE_SOURCE_NO
      else QUDA_PRESERVE_SOURCE_YES := by
  simp only [fillInnerCGInvertParam]; split_ifs <;> rfl

/-- C10, counterexample.  For the outer configuration `mixedPrecParam` the sloppy and the
preconditioning precision differ, and yet the `Kparam` of the constructor (and the
result of `fillInnerCGInvertParam`) has `preserve_source = QUDA_PRESERVE_SOURCE_YES`,
not `QUDA_PRESERVE_SOURCE_NO`. -/
theorem preserve_source_counterexample :
    mixedPrecParam.cuda_prec_sloppy ≠ mixedPrecParam.cuda_prec_precondition ∧
    (PreconCG_Kparam (zeroParam ℚ) mixedPrecParam).preserve_source = QUDA_PRESERVE_SOURCE_YES ∧
    (PreconCG_Kparam (zeroParam ℚ) mixedPrecParam).preserve_source ≠ QUDA_PRESERVE_SOURCE_NO ∧
    (fillInnerCGInvertParam (zeroParam ℚ) mixedPrecParam).preserve_source
      = QUDA_PRESERVE_SOURCE_YES := by
  refine ⟨by decide, rfl, by decide, rfl⟩

end ConfigTheorems

/-! ## The outer loop -/

section LoopTheorems

variable {𝕜 V : Type} [Zero 𝕜] [Mul 𝕜] [Div 𝕜] [Sub 𝕜] [Neg 𝕜] [LT 𝕜]
  [DecidableRel (fun a b : 𝕜 => a < b)] [Zero V] [Add V] [Sub V] [SMul 𝕜 V]

/-- The loop, given at least `maxiter + 1` units of fuel (one when `maxiter` is
negative), returns the state after the first pass count `j` at which the condition is
false. -/
theorem whileLoop_result (c : Collaborators 𝕜 V) (self : PreconCG 𝕜 V) (b : V)
    (s : State 𝕜 V) :
    ∃ j, j ≤ (self.invParam.maxiter - s.k).toNat ∧
      (∀ i, i < j → loopCond self (iterState c self b s i) = true) ∧
      loopCond self (iterState c self b s j) = false ∧
      ∀ extra, whileLoop c self b ((self.invParam.maxiter - s.k).toNat + 1 + extra) s
        = some { iterState c self b s j with condEvals := s.condEvals + (j + 1) } := by
  obtain ⟨j, hj, hrun, hstop⟩ := exists_exit c self b s
  exact ⟨j, hj, hrun, hstop, fun extra =>
    whileLoop_run c self b j _ s (by omega) hrun hstop⟩

theorem initState_k (c : Collaborators 𝕜 V) (self : PreconCG 𝕜 V) (x b : V) (g : Bool) :
    (initState c self x b g).k = 0 := by
  unfold initState
  cases self.K <;> rfl

theorem initState_condEvals (c : Collaborators 𝕜 V) (self : PreconCG 𝕜 V) (x b : V)
    (g : Bool) : (initState c self x b g).condEvals = 0 := by
  unfold initState
  cases self.K <;> rfl

theorem initState_src_norm (c : Collaborators 𝕜 V) (self : PreconCG 𝕜 V) (x b : V)
    (g : Bool) : (initState c self x b g).src_norm = norm2 c b := by
  unfold initState
  cases self.K <;> rfl

theorem initState_stop (c : Collaborators 𝕜 V) (self : PreconCG 𝕜 V) (x b : V)
    (g : Bool) :
    (initState c self x b g).stop = norm2 c b * self.invParam.tol * self.invParam.tol := by
  unfold initState
  cases self.K <;> rfl

theorem initState_r (c : Collaborators 𝕜 V) (self : PreconCG 𝕜 V) (x b : V)
    (g : Bool) : (initState c self x b g).r = b - c.mat x := by
  unfold initState
  cases self.K <;> rfl

theorem initState_x (c : Collaborators 𝕜 V) (self : PreconCG 𝕜 V) (x b : V)
    (g : Bool) : (initState c self x b g).x = x := by
  unfold initState
  cases self.K <;> rfl

theorem initState_r2 (c : Collaborators 𝕜 V) (self : PreconCG 𝕜 V) (x b : V)
    (g : Bool) : (initState c self x b g).r2 = norm2 c (b - c.mat x) := by
  unfold initState
  cases self.K <;> rfl

/-- A run of `operator()` with enough fuel returns, and what it returns is `finish`
applied to the state after some number `j ≤ maxiter` of passes, `j` being the first
pass count at which the loop condition is false. -/
theorem solve_result (c : Collaborators 𝕜 V) (self : PreconCG 𝕜 V) (x b : V) (g : Bool) :
    ∃ j, j ≤ self.invParam.maxiter.toNat ∧
      (∀ i, i < j → loopCond self (iterState c self b (initState c self x b g) i) = true) ∧
      loopCond self (iterState c self b (initState c self x b g) j) = false ∧
      ∀ extra, self.solve c (self.invParam.maxiter.toNat + 1 + extra) x b g
        = some (finish c self b
            { iterState c self b (initState c self x b g) j with condEvals := j + 1 }) := by
  obtain ⟨j, hj, hrun, hstop, hres⟩ := whileLoop_result c self b (initState c self x b g)
  rw [initState_k, sub_zero] at hj
  refine ⟨j, hj, hrun, hstop, fun extra => ?_⟩
  have := hres extra
  rw [initState_k, sub_zero, initState_condEvals, Nat.zero_add] at this
  simp only [PreconCG.solve, this, Option.map_some']

end LoopTheorems

/-! ## The preconditioner path and the bypass -/

section BypassTheorems

variable {𝕜 V : Type} [LinearOrderedField 𝕜] [AddCommGroup V] [Module 𝕜 V]

theorem initState_minvr_bypass (c : Collaborators 𝕜 V) (self : PreconCG 𝕜 V)
    (K : InnerSolver V) (hK : self.K = some K)
    (h0 : maxOverlap self.Kparam.domain_overlap = 0) (x b : V) (g : Bool) :
    (initState c self x b g).minvr = (K false (b - c.mat x) (b - c.mat x)).1 ∧
    (initState c self x b g).p = (K false (b - c.mat x) (b - c.mat x)).1 := by
  simp [initState, hK, applyPreconditioner_bypass c self b K _ _ h0, xmyNormCuda]

theorem loopBody_minvr_bypass (c : Collaborators 𝕜 V) (self : PreconCG 𝕜 V)
    (K : InnerSolver V) (hK : self.K = some K)
    (h0 : maxOverlap self.Kparam.domain_overlap = 0) (b : V) (s : State 𝕜 V) :
    (loopBody c self b s).minvr
      = (K false (loopBody c self b s).r (loopBody c self b s).r).1 := by
  simp [loopBody, hK, applyPreconditioner_bypass c self b K _ _ h0]

theorem initState_trace_bypass (c : Collaborators 𝕜 V) (self : PreconCG 𝕜 V)
    (h0 : maxOverlap self.Kparam.domain_overlap = 0) (x b : V) (g : Bool) :
    Event.extendCall ∉ (initState c self x b g).trace ∧
    Event.cropCall ∉ (initState c self x b g).trace := by
  rcases hK : self.K with _ | K
  · simp [initState, hK]
  · simp [initState, hK, applyPreconditioner_bypass c self b K _ _ h0]

theorem loopBody_trace_bypass (c : Collaborators 𝕜 V) (self : PreconCG 𝕜 V)
    (h0 : maxOverlap self.Kparam.domain_overlap = 0) (b : V) (s : State 𝕜 V)
    (hs : Event.extendCall ∉ s.trace ∧ Event.cropCall ∉ s.trace) :
    Event.extendCall ∉ (loopBody c self b s).trace ∧
    Event.cropCall ∉ (loopBody c self b s).trace := by
  rcases hK : self.K with _ | K
  · simp [loopBody, hK, hs.1, hs.2]
  · simp [loopBody, hK, applyPreconditioner_bypass c self b K _ _ h0, hs.1, hs.2]

theorem iterState_trace_bypass (c : Collaborators 𝕜 V) (self : PreconCG 𝕜 V)
    (h0 : maxOverlap self.Kparam.domain_overlap = 0) (x b : V) (g : Bool) (j : Nat) :
    Event.extendCall ∉ (iterState c self b (initState c self x b g) j).trace ∧
    Event.cropCall ∉ (iterState c self b (initState c self x b g) j).trace := by
  induction j with
  | zero => exact initState_trace_bypass c self h0 x b g
  | succ j ih => exact loopBody_trace_bypass c self h0 b _ ih

/-- C1.  Bypass equivalence.  When the four overlap widths are zero and the inner
solver is `K`: the residual after initialisation is `b − A x` and the preconditioner
output `z` (`minvr`) computed there is what `K`, called with global reductions off,
returns for right-hand side `r` and initial guess `r`; after every pass `j + 1` through
the loop body `z` is again what `K` returns for the residual `r` of that pass; and a
run of `operator()` returns with a trace in which neither `extendCuda` nor `cropCuda`
occurs. -/
theorem bypass_equivalence (c : Collaborators 𝕜 V) (self : PreconCG 𝕜 V)
    (K : InnerSolver V) (hK : self.K = some K)
    (h0 : ∀ dir, self.Kparam.domain_overlap dir = 0) (x b : V) (g : Bool) :
    (initState c self x b g).r = b - c.mat x ∧
    (initState c self x b g).minvr
      = (K false (initState c self x b g).r (initState c self x b g).r).1 ∧
    (∀ j, (iterState c self b (initState c self x b g) (j + 1)).minvr
      = (K false (iterState c self b (initState c self x b g) (j + 1)).r
          (iterState c self b (initState c self x b g) (j + 1)).r).1) ∧
    (∀ j, Event.extendCall ∉ (iterState c self b (initState c self x b g) j).trace ∧
      Event.cropCall ∉ (iterState c self b (initState c self x b g) j).trace) ∧
    ∃ res, (∀ extra, self.solve c (self.invParam.maxiter.toNat + 1 + extra) x b g
        = some res) ∧
      Event.extendCall ∉ res.final.trace ∧ Event.cropCall ∉ res.final.trace := by
  have hm := maxOverlap_zero _ h0
  refine ⟨initState_r c self x b g, ?_, ?_, ?_, ?_⟩
  · rw [initState_r]; exact (initState_minvr_bypass c self K hK hm x b g).1
  · intro j
    exact loopBody_minvr_bypass c self K hK hm b _
  · intro j
    exact iterState_trace_bypass c self hm x b g j
  · obtain ⟨j, _, _, _, hres⟩ := solve_result c self x b g
    refine ⟨_, hres, ?_⟩
    have := iterState_trace_bypass c self hm x b g j
    simp [finish, this.1, this.2]

/-- C1, an instance: one-component fields, zero overlap, the inner solver that returns
its right-hand side. -/
theorem bypass_equivalence_witness :
    (preconCG ℚ (copySolver ℚ) 0 5).K = some (copySolver ℚ) ∧
    (∀ dir, (preconCG ℚ (copySolver ℚ) 0 5).Kparam.domain_overlap dir = 0) ∧
    (initState (scalarCollab id) (preconCG ℚ (copySolver ℚ) 0 5) 0 1 true).minvr
      = (copySolver ℚ false
          (initState (scalarCollab id) (preconCG ℚ (copySolver ℚ) 0 5) 0 1 true).r
          (initState (scalarCollab id) (preconCG ℚ (copySolver ℚ) 0 5) 0 1 true).r).1 :=
  ⟨rfl, fun _ => rfl,
    (bypass_equivalence (scalarCollab id) (preconCG ℚ (copySolver ℚ) 0 5) (copySolver ℚ)
      rfl (fun _ => rfl) 0 1 true).2.1⟩

end BypassTheorems

/-! ## The unpreconditioned recurrence -/

section PlainTheorems

variable {𝕜 V : Type} [LinearOrderedField 𝕜] [AddCommGroup V] [Module 𝕜 V]

/-- Without inner solver one pass through the loop body is a step of the
Fletcher-Reeves conjugate gradient recurrence. -/
theorem loopBody_none (c : Collaborators 𝕜 V) (self : PreconCG 𝕜 V) (hK : self.K = none)
    (b : V) (s : State 𝕜 V) :
    (loopBody c self b s).alpha = s.r2 / c.reDotProductCuda s.p (c.mat s.p) ∧
    (loopBody c self b s).r = s.r - (loopBody c self b s).alpha • c.mat s.p ∧
    (loopBody c self b s).r2 = norm2 c (loopBody c self b s).r ∧
    (loopBody c self b s).beta = (loopBody c self b s).r2 / s.r2 ∧
    (loopBody c self b s).x = s.x + (loopBody c self b s).alpha • s.p ∧
    (loopBody c self b s).p = (loopBody c self b s).r + (loopBody c self b s).beta • s.p ∧
    (loopBody c self b s).trace = s.trace ++
      [Event.matApply, Event.reduction s.globalReduce, Event.reduction s.globalReduce] ∧
    (loopBody c self b s).globalReduce = s.globalReduce := by
  simp [loopBody, hK, axpyCGNormCuda, axpyZpbxCuda, sub_eq_add_neg, add_comm]

theorem initState_none (c : Collaborators 𝕜 V) (self : PreconCG 𝕜 V) (hK : self.K = none)
    (x b : V) (g : Bool) :
    (initState c self x b g).p = (initState c self x b g).r ∧
    (initState c self x b g).r2 = norm2 c (initState c self x b g).r ∧
    (initState c self x b g).trace = [Event.matApply, Event.reduction g,
      Event.reduction g, Event.reduction g] := by
  simp [initState, hK, xmyNormCuda]

theorem iterState_none_r2 (c : Collaborators 𝕜 V) (self : PreconCG 𝕜 V)
    (hK : self.K = none) (x b : V) (g : Bool) (j : Nat) :
    (iterState c self b (initState c self x b g) j).r2
      = norm2 c (iterState c self b (initState c self x b g) j).r := by
  cases j with
  | zero => exact (initState_none c self hK x b g).2.1
  | succ j => exact (loopBody_none c self hK b _).2.2.1

theorem iterState_none_trace (c : Collaborators 𝕜 V) (self : PreconCG 𝕜 V)
    (hK : self.K = none) (x b : V) (g : Bool) (j : Nat) :
    ∀ e ∈ (iterState c self b (initState c self x b g) j).trace,
      e = Event.matApply ∨ ∃ g', e = Event.reduction g' := by
  induction j with
  | zero =>
    intro e he
    simp only [iterState, (initState_none c self hK x b g).2.2, List.mem_cons,
      List.mem_singleton, List.not_mem_nil, or_false] at he
    rcases he with h | h | h | h
    · exact Or.inl h
    · exact Or.inr ⟨_, h⟩
    · exact Or.inr ⟨_, h⟩
    · exact Or.inr ⟨_, h⟩
  | succ j ih =>
    intro e he
    simp only [iterState, (loopBody_none c self hK b _).2.2.2.2.2.2.1, List.mem_append,
      List.mem_cons, List.mem_singleton, List.not_mem_nil, or_false] at he
    rcases he with h | h | h | h
    · exact ih e h
    · exact Or.inl h
    · exact Or.inr ⟨_, h⟩
    · exact Or.inr ⟨_, h⟩

/-- C8.  Preconditioner-absent reduction.  With `K` null: the search direction is
initialised to the residual; in every pass through the loop body, entered in state `s`,
`alpha = r2_old / ⟨p, A p⟩`, the residual becomes `r − alpha·A p`, and
`beta = r2_new / r2_old`, where `r2_old` and `r2_new` are the squared norms of the
residual before and after that update (the Fletcher-Reeves quotient, with no cross
term); the update is `x ← x + alpha·p`, `p ← r_new + beta·p`; and neither the states of
the loop nor the returned state record a call of `extendCuda`, `cropCuda` or the inner
solver. -/
theorem unpreconditioned_recurrence (c : Collaborators 𝕜 V) (self : PreconCG 𝕜 V)
    (hK : self.K = none) (x b : V) (g : Bool) :
    (initState c self x b g).p = (initState c self x b g).r ∧
    (∀ j s, s = iterState c self b (initState c self x b g) j →
      s.r2 = norm2 c s.r ∧
      (loopBody c self b s).alpha = norm2 c s.r / c.reDotProductCuda s.p (c.mat s.p) ∧
      (loopBody c self b s).r = s.r - (loopBody c self b s).alpha • c.mat s.p ∧
      (loopBody c self b s).r2 = norm2 c (loopBody c self b s).r ∧
      (loopBody c self b s).beta = norm2 c (loopBody c self b s).r / norm2 c s.r ∧
      (loopBody c self b s).beta = (loopBody c self b s).r2 / s.r2 ∧
      (loopBody c self b s).x = s.x + (loopBody c self b s).alpha • s.p ∧
      (loopBody c self b s).p
        = (loopBody c self b s).r + (loopBody c self b s).beta • s.p ∧
      ∀ e ∈ (loopBody c self b s).trace,
        e ≠ Event.extendCall ∧ e ≠ Event.cropCall ∧ ∀ g', e ≠ Event.innerSolve g') ∧
    ∃ res, (∀ extra, self.solve c (self.invParam.maxiter.toNat + 1 + extra) x b g
        = some res) ∧
      ∀ e ∈ res.final.trace,
        e ≠ Event.extendCall ∧ e ≠ Event.cropCall ∧ ∀ g', e ≠ Event.innerSolve g' := by
  have hclean : ∀ e : Event, (e = Event.matApply ∨ ∃ g', e = Event.reduction g') →
      e ≠ Event.extendCall ∧ e ≠ Event.cropCall ∧ ∀ g', e ≠ Event.innerSolve g' := by
    rintro e (rfl | ⟨g', rfl⟩) <;> simp
  refine ⟨(initState_none c self hK x b g).1, ?_, ?_⟩
  · rintro j s rfl
    have hr2 := iterState_none_r2 c self hK x b g j
    obtain ⟨ha, hr, hn, hb, hx, hp, _, _⟩ := loopBody_none c self hK b
      (iterState c self b (initState c self x b g) j)
    refine ⟨hr2, ?_, hr, hn, ?_, hb, hx, hp, ?_⟩
    · rw [ha, hr2]
    · rw [hb, hn, hr2]
    · intro e he
      exact hclean e (iterState_none_trace c self hK x b g (j + 1) e he)
  · obtain ⟨j, _, _, _, hres⟩ := solve_result c self x b g
    refine ⟨_, hres, ?_⟩
    intro e he
    apply hclean
    simp only [finish, List.mem_append, List.mem_cons, List.mem_singleton,
      List.not_mem_nil, or_false] at he
    rcases he with h | h | h
    · exact iterState_none_trace c self hK x b g j e h
    · exact Or.inl h
    · exact Or.inr ⟨_, h⟩

/-- C8, an instance: the unpreconditioned solver on one-component fields. -/
theorem unpreconditioned_recurrence_witness :
    (plainCG ℚ ℚ 0 5).K = none ∧
    (initState (scalarCollab id) (plainCG ℚ ℚ 0 5) 0 1 true).p
      = (initState (scalarCollab id) (plainCG ℚ ℚ 0 5) 0 1 true).r :=
  ⟨rfl, (unpreconditioned_recurrence (scalarCollab id) (plainCG ℚ ℚ 0 5) rfl 0 1 true).1⟩

end PlainTheorems

/-! ## What the solve writes to the solver-output record -/

section OutputTheorems

variable {𝕜 V : Type} [LinearOrderedField 𝕜] [AddCommGroup V] [Module 𝕜 V]

/-- C4, as the code has it.  A run of `operator()` returns, and the solver-output
record it leaves is the record it was entered with except for `true_res`, which holds
`sqrt(‖b − A x‖² / ‖b‖²)` for the returned `x`; in particular the field `iter` is as it
was on entry, whatever the number `k` of passes through the loop.  (That number is
only printed.) -/
theorem output_record (c : Collaborators 𝕜 V) (self : PreconCG 𝕜 V) (x b : V) (g : Bool) :
    ∃ res, (∀ extra, self.solve c (self.invParam.maxiter.toNat + 1 + extra) x b g
        = some res) ∧
      res.invParam = { self.invParam with
        true_res := c.sqrt (norm2 c (b - c.mat res.x) / norm2 c b) } ∧
      res.invParam.iter = self.invParam.iter := by
  obtain ⟨j, _, _, _, hres⟩ := solve_result c self x b g
  refine ⟨_, hres, ?_, rfl⟩
  simp only [finish, xmyNormCuda, iterState_src_norm, initState_src_norm]

/-- C4, counterexample.  The unpreconditioned solver on one-component fields, entered
with `invParam.iter = 0`, `b = 1` and `x = 0`, makes one pass through the loop
(`k = 1`) and returns with `invParam.iter = 0`. -/
theorem iteration_count_counterexample :
    ((plainCG ℚ ℚ 0 5).solve (scalarCollab id) 6 0 1 true).map
      (fun res => (res.final.k, res.invParam.iter)) = some (1, 0) ∧
    ((plainCG ℚ ℚ 0 5).solve (scalarCollab id) 6 0 1 true).map
      (fun res => decide (res.invParam.iter = res.final.k)) = some false := by
  constructor <;>
  simp [PreconCG.solve, whileLoop, loopCond, loopBody, initState, plainCG, scalarCollab,
    finish, zeroParam, xmyNormCuda, norm2, axpyCGNormCuda, axpyZpbxCuda]

end OutputTheorems

/-! ## Infinities and NaN -/

section SpecialValues

theorem Double.zero_def : (0 : Double) = Double.fin 0 := rfl

theorem Double.neg_def (a : Double) : -a = Double.neg a := rfl

theorem Double.add_def (a b : Double) : a + b = Double.add a b := rfl

theorem Double.sub_def (a b : Double) : a - b = Double.sub a b := rfl

theorem Double.mul_def (a b : Double) : a * b = Double.mul a b := rfl

theorem Double.smul_def (a b : Double) : a • b = Double.mul a b := rfl

theorem Double.div_def (a b : Double) : a / b = Double.div a b := rfl

theorem Double.lt_def (a b : Double) : a < b ↔ Double.lt a b = true := Iff.rfl

theorem Double.le_def (a b : Double) : a ≤ b ↔ Double.le a b = true := Iff.rfl

section ResidualValue

variable {V : Type} [Zero V] [Add V] [Sub V] [SMul Double V]

end ResidualValue

end SpecialValues

/-! ## The dense reference -/

section DenseFacts

variable {𝕜 : Type} [LinearOrderedField 𝕜] {n : Nat}

open Matrix

@[simp] theorem denseCollab_mat (M : Matrix (Fin n) (Fin n) 𝕜)
    (base : Collaborators 𝕜 (Fin n → 𝕜)) (v : Fin n → 𝕜) :
    (denseCollab M base).mat v = M.mulVec v := rfl

@[simp] theorem denseCollab_dot (M : Matrix (Fin n) (Fin n) 𝕜)
    (base : Collaborators 𝕜 (Fin n → 𝕜)) (v w : Fin n → 𝕜) :
    (denseCollab M base).reDotProductCuda v w = v ⬝ᵥ w := rfl

@[simp] theorem denseCollab_norm2 (M : Matrix (Fin n) (Fin n) 𝕜)
    (base : Collaborators 𝕜 (Fin n → 𝕜)) (v : Fin n → 𝕜) :
    norm2 (denseCollab M base) v = v ⬝ᵥ v := rfl

theorem dot_self_nonneg (v : Fin n → 𝕜) : 0 ≤ v ⬝ᵥ v :=
  Finset.sum_nonneg (fun i _ => mul_self_nonneg (v i))

theorem dot_self_pos {v : Fin n → 𝕜} (hv : v ≠ 0) : 0 < v ⬝ᵥ v :=
  lt_of_le_of_ne (dot_self_nonneg v) (fun h => hv (dotProduct_self_eq_zero.mp h.symm))

theorem dot_self_eq_zero {v : Fin n → 𝕜} : v ⬝ᵥ v = 0 ↔ v = 0 := dotProduct_self_eq_zero

/-- For a positive definite matrix, `M v = 0` only for `v = 0`. -/
theorem IsSPD.eq_zero_of_mulVec_eq_zero {M : Matrix (Fin n) (Fin n) 𝕜} (hM : IsSPD M)
    {v : Fin n → 𝕜} (h : M.mulVec v = 0) : v = 0 := by
  by_contra hv
  have := hM.2 v hv
  rw [h, dotProduct_zero] at this
  exact lt_irrefl _ this

/-- For a symmetric matrix, `⟨v, M w⟩ = ⟨w, M v⟩`. -/
theorem IsSPD.dot_mulVec_comm {M : Matrix (Fin n) (Fin n) 𝕜} (hM : IsSPD M)
    (v w : Fin n → 𝕜) : v ⬝ᵥ M.mulVec w = w ⬝ᵥ M.mulVec v := by
  rw [dotProduct_mulVec, ← mulVec_transpose, hM.1, dotProduct_comm]

/-- The stopping threshold of the dense reference is not negative. -/
theorem dense_stop_nonneg (M : Matrix (Fin n) (Fin n) 𝕜) (base : Collaborators 𝕜 (Fin n → 𝕜))
    (self : PreconCG 𝕜 (Fin n → 𝕜)) (x b : Fin n → 𝕜) (g : Bool) (j : Nat) :
    0 ≤ (iterState (denseCollab M base) self b
      (initState (denseCollab M base) self x b g) j).stop := by
  rw [iterState_stop, initState_stop, mul_assoc]
  exact mul_nonneg (dot_self_nonneg b) (mul_self_nonneg _)

end DenseFacts

/-! ## The preconditioned pass -/

section PreconFacts

variable {𝕜 V : Type} [LinearOrderedField 𝕜] [AddCommGroup V] [Module 𝕜 V]

/-- With inner solver `K` one pass through the loop body computes the following, `z`
(`minvr`) being the output of the preconditioner application for the new residual. -/
theorem loopBody_some (c : Collaborators 𝕜 V) (self : PreconCG 𝕜 V) (K : InnerSolver V)
    (hK : self.K = some K) (b : V) (s : State 𝕜 V) :
    (loopBody c self b s).alpha = s.rMinvr / c.reDotProductCuda s.p (c.mat s.p) ∧
    (loopBody c self b s).r = s.r - (loopBody c self b s).alpha • c.mat s.p ∧
    (loopBody c self b s).r2 = norm2 c (loopBody c self b s).r ∧
    (loopBody c self b s).rMinvr
      = c.reDotProductCuda (loopBody c self b s).r (loopBody c self b s).minvr ∧
    (loopBody c self b s).rMinvr_old = s.rMinvr ∧
    (loopBody c self b s).r_new_Minvr_old
      = c.reDotProductCuda (loopBody c self b s).r s.minvr ∧
    (loopBody c self b s).beta
      = ((loopBody c self b s).rMinvr - (loopBody c self b s).r_new_Minvr_old)
        / (loopBody c self b s).rMinvr_old ∧
    (loopBody c self b s).x = s.x + (loopBody c self b s).alpha • s.p ∧
    (loopBody c self b s).p
      = (loopBody c self b s).minvr + (loopBody c self b s).beta • s.p := by
  simp [loopBody, hK, axpyCGNormCuda, axpyZpbxCuda, sub_eq_add_neg, add_comm]

theorem initState_some (c : Collaborators 𝕜 V) (self : PreconCG 𝕜 V) (K : InnerSolver V)
    (hK : self.K = some K) (x b : V) (g : Bool) :
    (initState c self x b g).p = (initState c self x b g).minvr ∧
    (initState c self x b g).rMinvr
      = c.reDotProductCuda (initState c self x b g).r (initState c self x b g).minvr := by
  simp [initState, hK]

end PreconFacts

/-! ## Exact-inverse preconditioner -/

section ExactInverse

variable {𝕜 : Type} [LinearOrderedField 𝕜] {n : Nat}

open Matrix

/-- C5, as the code has it.  In exact arithmetic, for a symmetric positive definite
`M`, zero overlap and an inner solver that returns the exact solution of `M z = r` for
every `r`: if the initial `r2` exceeds `stop` and `maxiter ≥ 1`, the loop returns after
exactly one pass (two evaluations of its condition), with `alpha = 1`, `r = 0`,
`r2 = 0` and `M x = b`. -/
theorem exact_inverse_one_iteration (M : Matrix (Fin n) (Fin n) 𝕜) (hM : IsSPD M)
    (base : Collaborators 𝕜 (Fin n → 𝕜)) (self : PreconCG 𝕜 (Fin n → 𝕜))
    (K : InnerSolver (Fin n → 𝕜)) (hK : self.K = some K)
    (h0 : ∀ dir, self.Kparam.domain_overlap dir = 0)
    (hexact : ∀ g x r, M.mulVec (K g x r).1 = r)
    (x b : Fin n → 𝕜) (g : Bool)
    (hr2 : (initState (denseCollab M base) self x b g).r2
      > (initState (denseCollab M base) self x b g).stop)
    (hmax : 1 ≤ self.invParam.maxiter) :
    ∃ s' : State 𝕜 (Fin n → 𝕜),
      (∀ extra, whileLoop (denseCollab M base) self b
          (self.invParam.maxiter.toNat + 1 + extra)
          (initState (denseCollab M base) self x b g) = some s') ∧
      s'.k = 1 ∧ s'.condEvals = 2 ∧ s'.alpha = 1 ∧ s'.r = 0 ∧ s'.r2 = 0 ∧
      M.mulVec s'.x = b := by
  have hm := maxOverlap_zero _ h0
  set c := denseCollab M base with hc
  set s0 := initState c self x b g with hs0
  -- facts about the initial state
  have hr0 : s0.r = b - M.mulVec x := initState_r c self x b g
  have hz0 : s0.minvr = (K false s0.r s0.r).1 := by
    rw [hr0]; exact (initState_minvr_bypass c self K hK hm x b g).1
  have hp0 : s0.p = s0.minvr := (initState_some c self K hK x b g).1
  have hrz0 : s0.rMinvr = s0.r ⬝ᵥ s0.minvr := (initState_some c self K hK x b g).2
  have hMz0 : M.mulVec s0.minvr = s0.r := by rw [hz0]; exact hexact _ _ _
  have hstop0 : 0 ≤ s0.stop := dense_stop_nonneg M base self x b g 0
  have hr2eq : s0.r2 = s0.r ⬝ᵥ s0.r := by
    rw [hs0, initState_r2, initState_r]; rfl
  have hrne : s0.r ≠ 0 := by
    intro h
    rw [hr2eq, h, dotProduct_zero] at hr2
    exact absurd hr2 (not_lt.mpr hstop0)
  have hzne : s0.minvr ≠ 0 := by
    intro h
    rw [h, mulVec_zero] at hMz0
    exact hrne hMz0.symm
  have hpos : 0 < s0.minvr ⬝ᵥ s0.r := by
    have := hM.2 _ hzne
    rwa [hMz0] at this
  -- the pass through the loop body
  obtain ⟨ha, hr, hr2', -, -, -, -, hx, -⟩ := loopBody_some c self K hK b s0
  have ha1 : (loopBody c self b s0).alpha = 1 := by
    rw [ha, hp0, hrz0, hc, denseCollab_dot, denseCollab_mat, hMz0, dotProduct_comm]
    exact div_self (ne_of_gt hpos)
  have hr1 : (loopBody c self b s0).r = 0 := by
    rw [hr, ha1, hp0, hc, denseCollab_mat, hMz0, one_smul, sub_self]
  have hr21 : (loopBody c self b s0).r2 = 0 := by
    rw [hr2', hr1, hc, denseCollab_norm2, dotProduct_zero]
  have hx1 : M.mulVec (loopBody c self b s0).x = b := by
    have hx0 : s0.x = x := initState_x c self x b g
    rw [hx, ha1, one_smul, hp0, mulVec_add, hMz0, hr0, hx0]
    abel
  -- the run
  have hk0 : s0.k = 0 := initState_k c self x b g
  have hcond0 : loopCond self (iterState c self b s0 0) = true := by
    simp only [iterState, loopCond, Bool.and_eq_true, decide_eq_true_eq]
    exact ⟨hr2, by rw [hk0]; omega⟩
  have hcond1 : loopCond self (iterState c self b s0 1) = false := by
    have hs : (loopBody c self b s0).stop = s0.stop := loopBody_stop c self b s0
    simp only [iterState, loopCond, Bool.and_eq_false_iff, decide_eq_false_iff_not, not_lt,
      gt_iff_lt]
    left
    rw [hr21, hs]; exact hstop0
  refine ⟨{ iterState c self b s0 1 with condEvals := s0.condEvals + (1 + 1) },
    fun extra => ?_, ?_, ?_, ha1, hr1, hr21, hx1⟩
  · apply whileLoop_run c self b 1 _ s0 (by omega)
    · intro i hi
      obtain rfl : i = 0 := by omega
      exact hcond0
    · exact hcond1
  · show (loopBody c self b s0).k = 1
    rw [loopBody_k, hk0]; rfl
  · show s0.condEvals + (1 + 1) = 2
    rw [hs0, initState_condEvals]

/-- C5, an instance: the 1-by-1 identity matrix with the inner solver that returns its
right-hand side, `b = 1`, `x = 0`, `tol = 0`, `maxiter = 5`. -/
theorem exact_inverse_one_iteration_witness :
    IsSPD (1 : Matrix (Fin 1) (Fin 1) ℚ) ∧
    (preconCG ℚ (copySolver (Fin 1 → ℚ)) 0 5).K = some (copySolver (Fin 1 → ℚ)) ∧
    (∀ dir, (preconCG ℚ (copySolver (Fin 1 → ℚ)) 0 5).Kparam.domain_overlap dir = 0) ∧
    (∀ (g : Bool) (x r : Fin 1 → ℚ),
      (1 : Matrix (Fin 1) (Fin 1) ℚ).mulVec (copySolver (Fin 1 → ℚ) g x r).1 = r) ∧
    (1 : Int) ≤ (preconCG ℚ (copySolver (Fin 1 → ℚ)) 0 5).invParam.maxiter ∧
    ∃ s' : State ℚ (Fin 1 → ℚ),
      (∀ extra, whileLoop (denseCollab 1 (copyCollab ℚ 1))
          (preconCG ℚ (copySolver (Fin 1 → ℚ)) 0 5) (fun _ => 1)
          ((preconCG ℚ (copySolver (Fin 1 → ℚ)) 0 5).invParam.maxiter.toNat + 1 + extra)
          (initState (denseCollab 1 (copyCollab ℚ 1))
            (preconCG ℚ (copySolver (Fin 1 → ℚ)) 0 5) 0 (fun _ => 1) true) = some s') ∧
      s'.k = 1 ∧ s'.condEvals = 2 ∧ s'.alpha = 1 ∧ s'.r = 0 ∧ s'.r2 = 0 ∧
      (1 : Matrix (Fin 1) (Fin 1) ℚ).mulVec s'.x = fun _ => 1 :=
  have hspd : IsSPD (1 : Matrix (Fin 1) (Fin 1) ℚ) :=
    ⟨Matrix.transpose_one, fun v hv => by rw [Matrix.one_mulVec]; exact dot_self_pos hv⟩
  have hex : ∀ (g : Bool) (x r : Fin 1 → ℚ),
      (1 : Matrix (Fin 1) (Fin 1) ℚ).mulVec (copySolver (Fin 1 → ℚ) g x r).1 = r :=
    fun _ _ r => Matrix.one_mulVec r
  ⟨hspd, rfl, fun _ => rfl, hex, by decide,
    exact_inverse_one_iteration 1 hspd (copyCollab ℚ 1)
      (preconCG ℚ (copySolver (Fin 1 → ℚ)) 0 5) (copySolver (Fin 1 → ℚ)) rfl (fun _ => rfl)
      hex 0 (fun _ => 1) true
      (by simp [initState, preconCG, denseCollab, copyCollab, copySolver, zeroParam,
            xmyNormCuda, norm2, applyPreconditioner, maxOverlap, Matrix.dotProduct])
      (by decide)⟩

/-- C5, counterexample.  With `maxiter = 0` (same matrix, inner solver, `b`, `x` and
`tol` as in the instance above) the initial `r2 = 1` exceeds `stop = 0`, and the loop
returns after no pass at all, with `k = 0` and `M x = 0 ≠ b`. -/
theorem exact_inverse_counterexample :
    IsSPD (1 : Matrix (Fin 1) (Fin 1) ℚ) ∧
    (∀ (g : Bool) (x r : Fin 1 → ℚ),
      (1 : Matrix (Fin 1) (Fin 1) ℚ).mulVec (copySolver (Fin 1 → ℚ) g x r).1 = r) ∧
    (∀ dir, (preconCG ℚ (copySolver (Fin 1 → ℚ)) 0 0).Kparam.domain_overlap dir = 0) ∧
    (initState (denseCollab 1 (copyCollab ℚ 1))
        (preconCG ℚ (copySolver (Fin 1 → ℚ)) 0 0) 0 (fun _ => 1) true).r2
      > (initState (denseCollab 1 (copyCollab ℚ 1))
        (preconCG ℚ (copySolver (Fin 1 → ℚ)) 0 0) 0 (fun _ => 1) true).stop ∧
    ∃ s' : State ℚ (Fin 1 → ℚ),
      (∀ extra, whileLoop (denseCollab 1 (copyCollab ℚ 1))
          (preconCG ℚ (copySolver (Fin 1 → ℚ)) 0 0) (fun _ => 1) (1 + extra)
          (initState (denseCollab 1 (copyCollab ℚ 1))
            (preconCG ℚ (copySolver (Fin 1 → ℚ)) 0 0) 0 (fun _ => 1) true) = some s') ∧
      s'.k = 0 ∧ s'.k ≠ 1 ∧
      (1 : Matrix (Fin 1) (Fin 1) ℚ).mulVec s'.x ≠ fun _ => 1 := by
  refine ⟨⟨Matrix.transpose_one, fun v hv => by rw [Matrix.one_mulVec]; exact dot_self_pos hv⟩,
    fun _ _ r => Matrix.one_mulVec r, fun _ => rfl, ?_, ?_⟩
  · simp [initState, preconCG, denseCollab, copyCollab, copySolver, zeroParam,
      xmyNormCuda, norm2, applyPreconditioner, maxOverlap, Matrix.dotProduct]
  · refine ⟨{ initState (denseCollab 1 (copyCollab ℚ 1))
        (preconCG ℚ (copySolver (Fin 1 → ℚ)) 0 0) 0 (fun _ => 1) true with condEvals := 1 },
      fun extra => ?_, ?_, ?_, ?_⟩
    · rw [Nat.add_comm]
      simp [whileLoop, loopCond, preconCG, zeroParam, initState]
    · simp [initState, preconCG]
    · simp [initState, preconCG]
    · simp only [Matrix.one_mulVec]
      intro h
      have := congrFun h 0
      simp [initState, preconCG] at this

end ExactInverse

/-! ## Energy of the iterates -/

section Energy

variable {𝕜 : Type} [LinearOrderedField 𝕜] {n : Nat}

open Matrix

/-- One pass through the loop body over the dense reference, in the form shared by the
two branches: `alpha = num / ⟨p, M p⟩` with `num` the tracked `⟨r, z⟩` (`rMinvr` with
an inner solver, `r2` without), and the new direction is `z + beta·p` for the new `z`
(the new residual itself without an inner solver). -/
theorem dense_step (M : Matrix (Fin n) (Fin n) 𝕜) (base : Collaborators 𝕜 (Fin n → 𝕜))
    (self : PreconCG 𝕜 (Fin n → 𝕜)) (b : Fin n → 𝕜) (s : State 𝕜 (Fin n → 𝕜)) :
    (loopBody (denseCollab M base) self b s).alpha
      = (if self.K.isSome then s.rMinvr else s.r2) / (s.p ⬝ᵥ M.mulVec s.p) ∧
    (loopBody (denseCollab M base) self b s).r
      = s.r - (loopBody (denseCollab M base) self b s).alpha • M.mulVec s.p ∧
    (loopBody (denseCollab M base) self b s).x
      = s.x + (loopBody (denseCollab M base) self b s).alpha • s.p ∧
    ∃ (z : Fin n → 𝕜) (β : 𝕜),
      (loopBody (denseCollab M base) self b s).p = z + β • s.p ∧
      (if self.K.isSome then (loopBody (denseCollab M base) self b s).rMinvr
        else (loopBody (denseCollab M base) self b s).r2)
        = z ⬝ᵥ (loopBody (denseCollab M base) self b s).r := by
  rcases hK : self.K with _ | K
  · obtain ⟨ha, hr, hr2, -, hx, hp, -, -⟩ := loopBody_none (denseCollab M base) self hK b s
    refine ⟨by simpa using ha, hr, hx, _, _, hp, ?_⟩
    simpa using hr2
  · obtain ⟨ha, hr, -, hrz, -, -, -, hx, hp⟩ :=
      loopBody_some (denseCollab M base) self K hK b s
    refine ⟨by simpa using ha, hr, hx, _, _, hp, ?_⟩
    simp only [Option.isSome_some, if_true, hrz, denseCollab_dot]
    exact dotProduct_comm _ _

/-- The invariants of a pass, and the decrease of the energy: if `r = b − M x` and
`⟨p, r⟩ = num` before a pass with `p ≠ 0`, the same holds after it, the new residual is
orthogonal to `p`, and the energy of the new iterate is at most that of the old one. -/
theorem energy_step (M : Matrix (Fin n) (Fin n) 𝕜) (hM : IsSPD M)
    (base : Collaborators 𝕜 (Fin n → 𝕜)) (self : PreconCG 𝕜 (Fin n → 𝕜))
    (b : Fin n → 𝕜) (s : State 𝕜 (Fin n → 𝕜))
    (h1 : s.r = b - M.mulVec s.x)
    (h2 : s.p ⬝ᵥ s.r = if self.K.isSome then s.rMinvr else s.r2)
    (hp : s.p ≠ 0) :
    (loopBody (denseCollab M base) self b s).r
      = b - M.mulVec (loopBody (denseCollab M base) self b s).x ∧
    (loopBody (denseCollab M base) self b s).p ⬝ᵥ (loopBody (denseCollab M base) self b s).r
      = (if self.K.isSome then (loopBody (denseCollab M base) self b s).rMinvr
          else (loopBody (denseCollab M base) self b s).r2) ∧
    s.p ⬝ᵥ (loopBody (denseCollab M base) self b s).r = 0 ∧
    energy M b (loopBody (denseCollab M base) self b s).x ≤ energy M b s.x := by
  obtain ⟨ha, hr, hx, z, β, hpn, hnum⟩ := dense_step M base self b s
  set s' := loopBody (denseCollab M base) self b s
  set num := (if self.K.isSome then s.rMinvr else s.r2) with hnumdef
  have hpAp : 0 < s.p ⬝ᵥ M.mulVec s.p := hM.2 _ hp
  have hα : s'.alpha * (s.p ⬝ᵥ M.mulVec s.p) = num := by
    rw [ha]; field_simp
  have horth : s.p ⬝ᵥ s'.r = 0 := by
    rw [hr, dotProduct_sub, dotProduct_smul, smul_eq_mul, h2, hα, sub_self]
  refine ⟨?_, ?_, horth, ?_⟩
  · rw [hr, hx, h1, mulVec_add, mulVec_smul]; abel
  · rw [hnum, hpn, add_dotProduct, smul_dotProduct, horth, smul_zero, add_zero]
  · have hsym : s.x ⬝ᵥ M.mulVec s.p = s.p ⬝ᵥ M.mulVec s.x := hM.dot_mulVec_comm _ _
    have hpr : s.p ⬝ᵥ M.mulVec s.x = s.p ⬝ᵥ b - num := by
      have : s.p ⬝ᵥ s.r = s.p ⬝ᵥ b - s.p ⬝ᵥ M.mulVec s.x := by
        rw [h1, dotProduct_sub]
      rw [h2] at this
      linarith
    have hbp : b ⬝ᵥ s.p = s.p ⬝ᵥ b := dotProduct_comm _ _
    have hexp : energy M b s'.x = energy M b s.x - s'.alpha * num
        + s'.alpha * (s'.alpha * (s.p ⬝ᵥ M.mulVec s.p)) / 2 := by
      unfold energy
      rw [hx, mulVec_add, mulVec_smul, add_dotProduct, dotProduct_add, dotProduct_add,
        smul_dotProduct, smul_dotProduct, dotProduct_smul, dotProduct_smul, dotProduct_add,
        dotProduct_smul, hsym, hpr, hbp]
      simp only [smul_eq_mul]
      ring
    rw [hexp, hα]
    have hnn : 0 ≤ s'.alpha * num := by
      rw [ha]
      have : num / (s.p ⬝ᵥ M.mulVec s.p) * num = num * num / (s.p ⬝ᵥ M.mulVec s.p) := by ring
      rw [this]
      exact div_nonneg (mul_self_nonneg _) hpAp.le
    linarith

/-- The invariants hold after every pass as long as the search directions so far are
not zero. -/
theorem dense_invariants (M : Matrix (Fin n) (Fin n) 𝕜) (hM : IsSPD M)
    (base : Collaborators 𝕜 (Fin n → 𝕜)) (self : PreconCG 𝕜 (Fin n → 𝕜))
    (x b : Fin n → 𝕜) (g : Bool) :
    ∀ j, (∀ i, i < j → (iterState (denseCollab M base) self b
        (initState (denseCollab M base) self x b g) i).p ≠ 0) →
      (iterState (denseCollab M base) self b (initState (denseCollab M base) self x b g) j).r
        = b - M.mulVec (iterState (denseCollab M base) self b
            (initState (denseCollab M base) self x b g) j).x ∧
      (iterState (denseCollab M base) self b (initState (denseCollab M base) self x b g) j).p
        ⬝ᵥ (iterState (denseCollab M base) self b
            (initState (denseCollab M base) self x b g) j).r
        = (if self.K.isSome then (iterState (denseCollab M base) self b
              (initState (denseCollab M base) self x b g) j).rMinvr
            else (iterState (denseCollab M base) self b
              (initState (denseCollab M base) self x b g) j).r2) := by
  intro j
  induction j with
  | zero =>
    intro _
    refine ⟨?_, ?_⟩
    · simp only [iterState, initState_r, initState_x, denseCollab_mat]
    · simp only [iterState]
      rcases hK : self.K with _ | K
      · obtain ⟨hp, hr2, -⟩ := initState_none (denseCollab M base) self hK x b g
        simp only [Option.isSome_none, Bool.false_eq_true, if_false, hp, hr2,
          denseCollab_norm2]
      · obtain ⟨hp, hrz⟩ := initState_some (denseCollab M base) self K hK x b g
        simp only [Option.isSome_some, if_true, hp, hrz, denseCollab_dot]
        exact dotProduct_comm _ _
  | succ j ih =>
    intro hp
    obtain ⟨h1, h2⟩ := ih (fun i hi => hp i (Nat.lt_succ_of_lt hi))
    obtain ⟨h1', h2', -, -⟩ := energy_step M hM base self b _ h1 h2 (hp j (Nat.lt_succ_self j))
    exact ⟨h1', h2'⟩

/-- Without inner solver the search direction is not zero as long as the tracked `r2`
is not zero. -/
theorem plain_direction_ne_zero (M : Matrix (Fin n) (Fin n) 𝕜) (hM : IsSPD M)
    (base : Collaborators 𝕜 (Fin n → 𝕜)) (self : PreconCG 𝕜 (Fin n → 𝕜))
    (hK : self.K = none) (x b : Fin n → 𝕜) (g : Bool) :
    ∀ j, (∀ i, i ≤ j → (iterState (denseCollab M base) self b
        (initState (denseCollab M base) self x b g) i).r2 ≠ 0) →
      ∀ i, i ≤ j → (iterState (denseCollab M base) self b
        (initState (denseCollab M base) self x b g) i).p ≠ 0 := by
  intro j
  induction j with
  | zero =>
    intro hr i hi hp0
    obtain rfl : i = 0 := by omega
    have := (dense_invariants M hM base self x b g 0 (fun i hi => absurd hi (by omega))).2
    rw [hp0, zero_dotProduct, hK] at this
    exact hr 0 le_rfl this.symm
  | succ j ih =>
    intro hr i hi hp0
    have hprev := ih (fun i hi => hr i (Nat.le_succ_of_le hi))
    rcases Nat.lt_or_ge i (j + 1) with hlt | hge
    · exact hprev i (Nat.lt_succ_iff.mp hlt) hp0
    · obtain rfl : i = j + 1 := by omega
      have := (dense_invariants M hM base self x b g (j + 1)
        (fun i hi => hprev i (Nat.lt_succ_iff.mp hi))).2
      rw [hp0, zero_dotProduct, hK] at this
      exact hr (j + 1) le_rfl this.symm

/-- C7, as the code has it.  In exact arithmetic, for a symmetric positive definite `M`
it is the energy `E(x) = ½⟨x, M x⟩ − ⟨b, x⟩` of the iterate (half the squared `M`-norm of
the error, up to a constant), not `r2`, that does not increase from one pass of the
loop to the next: if the loop condition holds in the states after `0, …, j` passes, so
that pass `j + 1` is executed, and, when there is an inner solver, the search
directions `p` of these states are not zero (without inner solver they never are),
then `E(x)` after pass `j + 1` is at most `E(x)` after pass `j`. -/
theorem energy_nonincreasing (M : Matrix (Fin n) (Fin n) 𝕜) (hM : IsSPD M)
    (base : Collaborators 𝕜 (Fin n → 𝕜)) (self : PreconCG 𝕜 (Fin n → 𝕜))
    (x b : Fin n → 𝕜) (g : Bool) (j : Nat)
    (hrun : ∀ i, i ≤ j → loopCond self (iterState (denseCollab M base) self b
      (initState (denseCollab M base) self x b g) i) = true)
    (hp : self.K.isSome → ∀ i, i ≤ j → (iterState (denseCollab M base) self b
      (initState (denseCollab M base) self x b g) i).p ≠ 0) :
    energy M b (iterState (denseCollab M base) self b
        (initState (denseCollab M base) self x b g) (j + 1)).x
      ≤ energy M b (iterState (denseCollab M base) self b
        (initState (denseCollab M base) self x b g) j).x := by
  have hpne : ∀ i, i ≤ j → (iterState (denseCollab M base) self b
      (initState (denseCollab M base) self x b g) i).p ≠ 0 := by
    rcases hK : self.K with _ | K
    · apply plain_direction_ne_zero M hM base self hK x b g j
      intro i hi h0
      have hc := hrun i hi
      simp only [loopCond, Bool.and_eq_true, decide_eq_true_eq, gt_iff_lt] at hc
      have hs := dense_stop_nonneg M base self x b g i
      rw [h0] at hc
      exact absurd hc.1 (not_lt.mpr hs)
    · exact hp (by rw [hK]; rfl)
  obtain ⟨h1, h2⟩ := dense_invariants M hM base self x b g j
    (fun i hi => hpne i (Nat.le_of_lt hi))
  exact (energy_step M hM base self b _ h1 h2 (hpne j le_rfl)).2.2.2

theorem isSPD_diag3 : IsSPD diag3 := by
  refine ⟨Matrix.diagonal_transpose _, fun v hv => ?_⟩
  have h := dot_self_pos hv
  simp only [diag3, Matrix.dotProduct, Fin.sum_univ_three, Matrix.mulVec_diagonal] at h ⊢
  simp only [Matrix.cons_val_zero, Matrix.cons_val_one, Matrix.head_cons, Matrix.cons_val_two,
    Matrix.tail_cons]
  nlinarith [mul_self_nonneg (v 0), mul_self_nonneg (v 1), mul_self_nonneg (v 2)]

theorem plainRun3_r2_zero : (plainRun3 0).r2 = 110 := by
  simp [plainRun3, diag3, rhs3, iterState, initState, plainCG, denseCollab, copyCollab,
    zeroParam, xmyNormCuda, norm2, Matrix.dotProduct, Fin.sum_univ_three, Matrix.vecHead,
    Matrix.vecTail]
  norm_num

theorem plainRun3_r2_one : (plainRun3 1).r2 = 53460 / 2209 := by
  simp [plainRun3, diag3, rhs3, iterState, loopBody, initState, plainCG, denseCollab,
    copyCollab, zeroParam, xmyNormCuda, norm2, axpyCGNormCuda, axpyZpbxCuda,
    Matrix.dotProduct, Fin.sum_univ_three, Matrix.mulVec_diagonal, Matrix.vecHead,
    Matrix.vecTail]
  norm_num

theorem plainRun3_r2_two : (plainRun3 2).r2 = 243 / 8 := by
  simp [plainRun3, diag3, rhs3, iterState, loopBody, initState, plainCG, denseCollab,
    copyCollab, zeroParam, xmyNormCuda, norm2, axpyCGNormCuda, axpyZpbxCuda,
    Matrix.dotProduct, Fin.sum_univ_three, Matrix.mulVec_diagonal, Matrix.vecHead,
    Matrix.vecTail]
  norm_num

theorem plainRun3_stop (j : Nat) : (plainRun3 j).stop = 110 * (1 / 10 ^ 10) * (1 / 10 ^ 10) := by
  rw [plainRun3, iterState_stop, initState_stop]
  simp [rhs3, plainCG, denseCollab, norm2, Matrix.dotProduct, Fin.sum_univ_three,
    Matrix.vecHead, Matrix.vecTail]
  norm_num

theorem plainRun3_k (j : Nat) : (plainRun3 j).k = j := by
  rw [plainRun3, iterState_k, initState_k, zero_add]

theorem preconRun3_r2_zero : (preconRun3 0).r2 = 110 := by
  simp [preconRun3, diag3, rhs3, iterState, initState, preconCG, copySolver,
    applyPreconditioner, maxOverlap, denseCollab, copyCollab,
    zeroParam, xmyNormCuda, norm2, Matrix.dotProduct, Fin.sum_univ_three, Matrix.vecHead,
    Matrix.vecTail]
  norm_num

theorem preconRun3_r2_one : (preconRun3 1).r2 = 53460 / 2209 := by
  simp [preconRun3, diag3, rhs3, iterState, loopBody, initState, preconCG, copySolver,
    applyPreconditioner, maxOverlap, denseCollab,
    copyCollab, zeroParam, xmyNormCuda, norm2, axpyCGNormCuda, axpyZpbxCuda,
    Matrix.dotProduct, Fin.sum_univ_three, Matrix.mulVec_diagonal, Matrix.vecHead,
    Matrix.vecTail]
  norm_num

theorem preconRun3_r2_two : (preconRun3 2).r2 = 243 / 8 := by
  simp [preconRun3, diag3, rhs3, iterState, loopBody, initState, preconCG, copySolver,
    applyPreconditioner, maxOverlap, denseCollab,
    copyCollab, zeroParam, xmyNormCuda, norm2, axpyCGNormCuda, axpyZpbxCuda,
    Matrix.dotProduct, Fin.sum_univ_three, Matrix.mulVec_diagonal, Matrix.vecHead,
    Matrix.vecTail]
  norm_num

theorem preconRun3_stop (j : Nat) :
    (preconRun3 j).stop = 110 * (1 / 10 ^ 10) * (1 / 10 ^ 10) := by
  rw [preconRun3, iterState_stop, initState_stop]
  simp [rhs3, preconCG, denseCollab, norm2, Matrix.dotProduct, Fin.sum_univ_three,
    Matrix.vecHead, Matrix.vecTail]
  norm_num

theorem preconRun3_k (j : Nat) : (preconRun3 j).k = j := by
  rw [preconRun3, iterState_k, initState_k, zero_add]

theorem plainRun3_cond_zero :
    loopCond (plainCG ℚ (Fin 3 → ℚ) (1 / 10 ^ 10) 50) (plainRun3 0) = true := by
  simp only [loopCond, plainRun3_r2_zero, plainRun3_stop, plainRun3_k, plainCG]
  norm_num

/-- C7, an instance: the first pass of the unpreconditioned solver for
`M = diag(1, 5, 10)`, `b = (5, 9, 2)`, `x = 0`. -/
theorem energy_nonincreasing_witness :
    IsSPD diag3 ∧
    (∀ i, i ≤ 0 → loopCond (plainCG ℚ (Fin 3 → ℚ) (1 / 10 ^ 10) 50) (plainRun3 i) = true) ∧
    energy diag3 rhs3 (plainRun3 (0 + 1)).x ≤ energy diag3 rhs3 (plainRun3 0).x :=
  have hrun : ∀ i, i ≤ 0 →
      loopCond (plainCG ℚ (Fin 3 → ℚ) (1 / 10 ^ 10) 50) (plainRun3 i) = true :=
    fun i hi => by
      obtain rfl : i = 0 := by omega
      exact plainRun3_cond_zero
  ⟨isSPD_diag3, hrun,
    energy_nonincreasing diag3 isSPD_diag3 (copyCollab ℚ 3)
      (plainCG ℚ (Fin 3 → ℚ) (1 / 10 ^ 10) 50) 0 rhs3 true 0 hrun
      (fun h => absurd h (by simp [plainCG]))⟩

/-- C7, counterexample.  For the symmetric positive definite `M = diag(1, 5, 10)`,
`b = (5, 9, 2)`, `x = 0`, `tol = 1e-10` and `maxiter = 50` the values of `r2` are `110`
at the start, `53460/2209` after the first pass and `243/8` after the second: `r2`
increases from the first pass to the second, and the loop condition holds in all three
states, so that the passes are executed.  This is so without inner solver and with the
inner solver that returns its right-hand side. -/
theorem monotone_residual_counterexample :
    IsSPD diag3 ∧
    ((plainRun3 0).r2 = 110 ∧ (plainRun3 1).r2 = 53460 / 2209 ∧
      (plainRun3 2).r2 = 243 / 8 ∧ (plainRun3 1).r2 < (plainRun3 2).r2 ∧
      ∀ i, i ≤ 2 →
        loopCond (plainCG ℚ (Fin 3 → ℚ) (1 / 10 ^ 10) 50) (plainRun3 i) = true) ∧
    ((preconRun3 0).r2 = 110 ∧ (preconRun3 1).r2 = 53460 / 2209 ∧
      (preconRun3 2).r2 = 243 / 8 ∧ (preconRun3 1).r2 < (preconRun3 2).r2 ∧
      ∀ i, i ≤ 2 →
        loopCond (preconCG ℚ (copySolver (Fin 3 → ℚ)) (1 / 10 ^ 10) 50) (preconRun3 i)
          = true) := by
  refine ⟨isSPD_diag3,
    ⟨plainRun3_r2_zero, plainRun3_r2_one, plainRun3_r2_two, ?_, ?_⟩,
    ⟨preconRun3_r2_zero, preconRun3_r2_one, preconRun3_r2_two, ?_, ?_⟩⟩
  · rw [plainRun3_r2_one, plainRun3_r2_two]; norm_num
  · intro i hi
    simp only [loopCond, plainRun3_stop, plainRun3_k, plainCG]
    interval_cases i
    · rw [plainRun3_r2_zero]; norm_num
    · rw [plainRun3_r2_one]; norm_num
    · rw [plainRun3_r2_two]; norm_num
  · rw [preconRun3_r2_one, preconRun3_r2_two]; norm_num
  · intro i hi
    simp only [loopCond, preconRun3_stop, preconRun3_k, preconCG]
    interval_cases i
    · rw [preconRun3_r2_zero]; norm_num
    · rw [preconRun3_r2_one]; norm_num
    · rw [preconRun3_r2_two]; norm_num

end Energy

/-! ## Finite termination of the unpreconditioned recurrence -/

section FiniteTermination

variable {𝕜 : Type} [LinearOrderedField 𝕜] {n : Nat}

open Matrix

/-- The conjugate gradient recurrence in exact arithmetic: as long as the residuals
`R 0, …, R (m − 1)` are not zero, the residuals up to `R m` are mutually orthogonal, the
directions up to `P m` are mutually `M`-conjugate, and `⟨P j, R j⟩ = ⟨R j, R j⟩`. -/
theorem cg_orthogonality (M : Matrix (Fin n) (Fin n) 𝕜) (hM : IsSPD M)
    (R P : ℕ → Fin n → 𝕜) (α β : ℕ → 𝕜)
    (hP0 : P 0 = R 0)
    (hR : ∀ j, R (j + 1) = R j - α j • M.mulVec (P j))
    (hP : ∀ j, P (j + 1) = R (j + 1) + β j • P j)
    (hα : ∀ j, α j = (R j ⬝ᵥ R j) / (P j ⬝ᵥ M.mulVec (P j)))
    (hβ : ∀ j, β j = (R (j + 1) ⬝ᵥ R (j + 1)) / (R j ⬝ᵥ R j)) :
    ∀ m, (∀ i, i < m → R i ≠ 0) →
      (∀ i j, i < j → j ≤ m → R i ⬝ᵥ R j = 0) ∧
      (∀ i j, i < j → j ≤ m → P i ⬝ᵥ M.mulVec (P j) = 0) ∧
      (∀ j, j ≤ m → P j ⬝ᵥ R j = R j ⬝ᵥ R j) := by
  intro m
  induction m with
  | zero =>
    intro _
    refine ⟨fun i j hij hj => absurd hij (by omega),
      fun i j hij hj => absurd hij (by omega), fun j hj => ?_⟩
    obtain rfl : j = 0 := by omega
    rw [hP0]
  | succ m ih =>
    intro hnz
    obtain ⟨hA, hB, hC⟩ := ih (fun i hi => hnz i (Nat.lt_succ_of_lt hi))
    have hρ : ∀ j, j ≤ m → 0 < R j ⬝ᵥ R j :=
      fun j hj => dot_self_pos (hnz j (Nat.lt_succ_of_le hj))
    have hPne : ∀ j, j ≤ m → P j ≠ 0 := by
      intro j hj h0
      have := hC j hj
      rw [h0, zero_dotProduct] at this
      exact (ne_of_gt (hρ j hj)) this.symm
    have hpAp : ∀ j, j ≤ m → 0 < P j ⬝ᵥ M.mulVec (P j) := fun j hj => hM.2 _ (hPne j hj)
    have hαmul : ∀ j, j ≤ m → α j * (P j ⬝ᵥ M.mulVec (P j)) = R j ⬝ᵥ R j := by
      intro j hj
      rw [hα]
      exact div_mul_cancel₀ _ (ne_of_gt (hpAp j hj))
    have hαne : ∀ j, j ≤ m → α j ≠ 0 := by
      intro j hj h0
      have := hαmul j hj
      rw [h0, zero_mul] at this
      exact (ne_of_gt (hρ j hj)) this.symm
    have hβmul : β m * (R m ⬝ᵥ R m) = R (m + 1) ⬝ᵥ R (m + 1) := by
      rw [hβ]
      exact div_mul_cancel₀ _ (ne_of_gt (hρ m le_rfl))
    -- the residuals against `M (P m)`
    have hF1 : ∀ i, i ≤ m →
        R i ⬝ᵥ M.mulVec (P m) = if i = m then P m ⬝ᵥ M.mulVec (P m) else 0 := by
      intro i hi
      cases i with
      | zero =>
        rw [← hP0]
        by_cases hm : 0 = m
        · rw [if_pos hm, ← hm]
        · rw [if_neg hm]
          exact hB 0 m (by omega) le_rfl
      | succ i' =>
        have hRi : R (i' + 1) = P (i' + 1) - β i' • P i' := by
          rw [hP i']; abel
        rw [hRi, sub_dotProduct, smul_dotProduct, hB i' m (by omega) le_rfl, smul_zero,
          sub_zero]
        by_cases hm : i' + 1 = m
        · rw [if_pos hm, hm]
        · rw [if_neg hm]
          exact hB (i' + 1) m (by omega) le_rfl
    -- the new residual is orthogonal to the earlier ones
    have hA' : ∀ i, i ≤ m → R i ⬝ᵥ R (m + 1) = 0 := by
      intro i hi
      rw [hR m, dotProduct_sub, dotProduct_smul, hF1 i hi, smul_eq_mul]
      by_cases him : i = m
      · rw [if_pos him, him, hαmul m le_rfl, sub_self]
      · rw [if_neg him, mul_zero, sub_zero]
        exact hA i m (by omega) le_rfl
    have hPR : P m ⬝ᵥ R (m + 1) = 0 := by
      rw [hR m, dotProduct_sub, dotProduct_smul, smul_eq_mul, hC m le_rfl, hαmul m le_rfl,
        sub_self]
    have hC' : P (m + 1) ⬝ᵥ R (m + 1) = R (m + 1) ⬝ᵥ R (m + 1) := by
      rw [hP m, add_dotProduct, smul_dotProduct, hPR, smul_zero, add_zero]
    -- the new direction is conjugate to the earlier ones
    have hB' : ∀ i, i ≤ m → P i ⬝ᵥ M.mulVec (P (m + 1)) = 0 := by
      intro i hi
      rw [hM.dot_mulVec_comm, hP m, add_dotProduct, smul_dotProduct, smul_eq_mul]
      have hkey : α i * (R (m + 1) ⬝ᵥ M.mulVec (P i))
          = R (m + 1) ⬝ᵥ R i - R (m + 1) ⬝ᵥ R (i + 1) := by
        have : α i • M.mulVec (P i) = R i - R (i + 1) := by
          rw [hR i]; abel
        rw [← smul_eq_mul, ← dotProduct_smul, this, dotProduct_sub]
      have h1 : R (m + 1) ⬝ᵥ R i = 0 := by
        rw [dotProduct_comm]; exact hA' i hi
      by_cases him : i = m
      · rw [him] at hkey ⊢
        rw [dotProduct_comm (R (m + 1)) (R m), hA' m le_rfl, zero_sub] at hkey
        have : α m * (R (m + 1) ⬝ᵥ M.mulVec (P m) + β m * (P m ⬝ᵥ M.mulVec (P m))) = 0 := by
          rw [mul_add, hkey, mul_left_comm, hαmul m le_rfl, hβmul]
          ring
        rcases mul_eq_zero.mp this with h | h
        · exact absurd h (hαne m le_rfl)
        · exact h
      · have h2 : R (m + 1) ⬝ᵥ R (i + 1) = 0 := by
          rw [dotProduct_comm]; exact hA' (i + 1) (by omega)
        rw [h1, h2, sub_zero] at hkey
        have h3 : R (m + 1) ⬝ᵥ M.mulVec (P i) = 0 := by
          rcases mul_eq_zero.mp hkey with h | h
          · exact absurd h (hαne i hi)
          · exact h
        have h4 : P m ⬝ᵥ M.mulVec (P i) = 0 := by
          rw [hM.dot_mulVec_comm]; exact hB i m (by omega) le_rfl
        rw [h3, h4, mul_zero, add_zero]
    refine ⟨?_, ?_, ?_⟩
    · intro i j hij hj
      rcases Nat.lt_or_ge j (m + 1) with h | h
      · exact hA i j hij (by omega)
      · obtain rfl : j = m + 1 := by omega
        exact hA' i (by omega)
    · intro i j hij hj
      rcases Nat.lt_or_ge j (m + 1) with h | h
      · exact hB i j hij (by omega)
      · obtain rfl : j = m + 1 := by omega
        exact hB' i (by omega)
    · intro j hj
      rcases Nat.lt_or_ge j (m + 1) with h | h
      · exact hC j (by omega)
      · obtain rfl : j = m + 1 := by omega
        exact hC'

theorem finset_sum_dotProduct {ι : Type} (s : Finset ι) (f : ι → Fin n → 𝕜)
    (w : Fin n → 𝕜) : (∑ i in s, f i) ⬝ᵥ w = ∑ i in s, f i ⬝ᵥ w := by
  classical
  induction s using Finset.induction_on with
  | empty => simp
  | insert ha ih => rw [Finset.sum_insert ha, Finset.sum_insert ha, add_dotProduct, ih]

/-- Mutually orthogonal vectors of `n` components that are not zero are at most `n`. -/
theorem orthogonal_family_card (R : ℕ → Fin n → 𝕜) (m : Nat)
    (hnz : ∀ i, i ≤ m → R i ≠ 0)
    (horth : ∀ i j, i < j → j ≤ m → R i ⬝ᵥ R j = 0) : m + 1 ≤ n := by
  have hli : LinearIndependent 𝕜 (fun i : Fin (m + 1) => R i.val) := by
    rw [Fintype.linearIndependent_iff]
    intro c hc i
    have h := congrArg (fun v => v ⬝ᵥ R i.val) hc
    simp only [finset_sum_dotProduct, smul_dotProduct, zero_dotProduct, smul_eq_mul] at h
    rw [Finset.sum_eq_single i] at h
    · rcases mul_eq_zero.mp h with h' | h'
      · exact h'
      · exact absurd (dot_self_eq_zero.mp h') (hnz i.val (Nat.lt_succ_iff.mp i.isLt))
    · intro j _ hji
      have hval : j.val ≠ i.val := fun h => hji (Fin.ext h)
      rcases Nat.lt_or_gt_of_ne hval with hlt | hgt
      · rw [horth j.val i.val hlt (Nat.lt_succ_iff.mp i.isLt), mul_zero]
      · rw [dotProduct_comm, horth i.val j.val hgt (Nat.lt_succ_iff.mp j.isLt), mul_zero]
    · intro hi
      exact absurd (Finset.mem_univ i) hi
  have := hli.fintype_card_le_finrank
  simpa using this

end FiniteTermination

section FiniteTerminationRun

variable {𝕜 : Type} [LinearOrderedField 𝕜] {n : Nat}

open Matrix

/-- Without inner solver, over the dense reference for a symmetric positive definite
matrix with `n` rows, the residual is zero after some number `i ≤ n` of passes. -/
theorem plain_residual_vanishes (M : Matrix (Fin n) (Fin n) 𝕜) (hM : IsSPD M)
    (base : Collaborators 𝕜 (Fin n → 𝕜)) (self : PreconCG 𝕜 (Fin n → 𝕜))
    (hK : self.K = none) (x b : Fin n → 𝕜) (g : Bool) :
    ∃ i, i ≤ n ∧ (iterState (denseCollab M base) self b
      (initState (denseCollab M base) self x b g) i).r2 = 0 := by
  set c := denseCollab M base with hc
  set s0 := initState c self x b g with hs0
  have hr2 : ∀ j, (iterState c self b s0 j).r2
      = (iterState c self b s0 j).r ⬝ᵥ (iterState c self b s0 j).r :=
    fun j => iterState_none_r2 c self hK x b g j
  by_contra hcon
  have hnz : ∀ i, i ≤ n → (iterState c self b s0 i).r ≠ 0 := by
    intro i hi h0
    exact hcon ⟨i, hi, by rw [hr2, h0, dotProduct_zero]⟩
  have horth := (cg_orthogonality M hM
    (fun j => (iterState c self b s0 j).r) (fun j => (iterState c self b s0 j).p)
    (fun j => (iterState c self b s0 (j + 1)).alpha)
    (fun j => (iterState c self b s0 (j + 1)).beta)
    (initState_none c self hK x b g).1
    (fun j => (loopBody_none c self hK b _).2.1)
    (fun j => (loopBody_none c self hK b _).2.2.2.2.2.1)
    (fun j => by
      show (loopBody c self b (iterState c self b s0 j)).alpha = _
      rw [(loopBody_none c self hK b _).1, hr2 j]; rfl)
    (fun j => by
      show (loopBody c self b (iterState c self b s0 j)).beta = _
      rw [(loopBody_none c self hK b _).2.2.2.1, hr2 j]
      exact congrArg (fun t => t / _) (hr2 (j + 1)))
    n (fun i hi => hnz i (Nat.le_of_lt hi))).1
  have := orthogonal_family_card (fun j => (iterState c self b s0 j).r) n hnz horth
  omega

/-- C6, as the code has it.  In exact arithmetic, for a symmetric positive definite
matrix `M` with `n` rows, every `b`, every initial `x` and every tolerance, without
inner solver and with `maxiter ≥ n` (so for `tol = 1e-10`, `maxiter = 50` and every
`n ≤ 50`, `n = 4` among them): the loop returns after at most `n` passes with
`r2 ≤ stop`, and the returned `x` satisfies `‖b − M x‖² ≤ ‖b‖² · tol²`. -/
theorem plain_cg_finite_termination (M : Matrix (Fin n) (Fin n) 𝕜) (hM : IsSPD M)
    (base : Collaborators 𝕜 (Fin n → 𝕜)) (self : PreconCG 𝕜 (Fin n → 𝕜))
    (hK : self.K = none) (hmax : (n : Int) ≤ self.invParam.maxiter)
    (x b : Fin n → 𝕜) (g : Bool) :
    ∃ s' : State 𝕜 (Fin n → 𝕜),
      (∀ extra, whileLoop (denseCollab M base) self b
          (self.invParam.maxiter.toNat + 1 + extra)
          (initState (denseCollab M base) self x b g) = some s') ∧
      s'.r2 ≤ s'.stop ∧ s'.stop = (b ⬝ᵥ b) * self.invParam.tol ^ 2 ∧
      0 ≤ s'.k ∧ s'.k ≤ n ∧
      (b - M.mulVec s'.x) ⬝ᵥ (b - M.mulVec s'.x) ≤ (b ⬝ᵥ b) * self.invParam.tol ^ 2 := by
  set c := denseCollab M base with hc
  set s0 := initState c self x b g with hs0
  obtain ⟨i0, hi0, hzero⟩ := plain_residual_vanishes M hM base self hK x b g
  obtain ⟨j, hj, hrun, hstop, hres⟩ := whileLoop_result c self b s0
  have hk0 : s0.k = 0 := initState_k c self x b g
  have hkj : (iterState c self b s0 j).k = j := by rw [iterState_k, hk0, zero_add]
  have hstopnn : ∀ i, 0 ≤ (iterState c self b s0 i).stop :=
    fun i => dense_stop_nonneg M base self x b g i
  have hpos : ∀ i, i < j → 0 < (iterState c self b s0 i).r2 := by
    intro i hi
    have := hrun i hi
    simp only [loopCond, Bool.and_eq_true, decide_eq_true_eq, gt_iff_lt] at this
    exact lt_of_le_of_lt (hstopnn i) this.1
  have hji : j ≤ i0 := by
    by_contra hlt
    have := hpos i0 (by omega)
    rw [hzero] at this
    exact lt_irrefl _ this
  have hle : (iterState c self b s0 j).r2 ≤ (iterState c self b s0 j).stop := by
    simp only [loopCond, Bool.and_eq_false_iff, decide_eq_false_iff_not, not_lt, gt_iff_lt]
      at hstop
    rcases hstop with h | h
    · exact h
    · rw [hkj] at h
      have : j = i0 := by omega
      rw [this, hzero]
      exact hstopnn i0
  have hstopval : (iterState c self b s0 j).stop = (b ⬝ᵥ b) * self.invParam.tol ^ 2 := by
    rw [iterState_stop, hs0, initState_stop, hc, denseCollab_norm2]; ring
  have hpne : ∀ i, i < j → (iterState c self b s0 i).p ≠ 0 := by
    intro i hi
    exact plain_direction_ne_zero M hM base self hK x b g i
      (fun i' hi' => ne_of_gt (hpos i' (by omega))) i le_rfl
  have hres1 := (dense_invariants M hM base self x b g j hpne).1
  refine ⟨{ iterState c self b s0 j with condEvals := s0.condEvals + (j + 1) },
    fun extra => ?_, hle, hstopval, ?_, ?_, ?_⟩
  · have := hres extra
    rw [hk0, sub_zero] at this
    exact this
  · show 0 ≤ (iterState c self b s0 j).k
    rw [hkj]; omega
  · show (iterState c self b s0 j).k ≤ n
    rw [hkj]; omega
  · show (b - M.mulVec (iterState c self b s0 j).x) ⬝ᵥ
        (b - M.mulVec (iterState c self b s0 j).x) ≤ _
    rw [← hres1]
    have h2 := iterState_none_r2 c self hK x b g j
    rw [hc, denseCollab_norm2] at h2
    rw [← h2, ← hstopval]
    exact hle

end FiniteTerminationRun

section Chain

open Matrix

theorem diffMatrix_mulVec (n : Nat) (f : ℕ → ℚ) (i : Fin n) :
    (diffMatrix n).mulVec (fun j => f j.val) i
      = f i.val - (if 0 < i.val then f (i.val - 1) else 0) := by
  simp only [Matrix.mulVec, Matrix.dotProduct, diffMatrix, Matrix.of_apply]
  have hterm : ∀ j : Fin n,
      (if j = i then (1 : ℚ) else if j.val + 1 = i.val then -1 else 0) * f j.val
        = (if j = i then f i.val else 0)
          - (if j.val + 1 = i.val then f (i.val - 1) else 0) := by
    intro j
    by_cases h1 : j = i
    · subst h1
      simp
    · by_cases h2 : j.val + 1 = i.val
      · have : i.val - 1 = j.val := by omega
        simp [h1, h2, this]
      · simp [h1, h2]
  simp only [hterm, Finset.sum_sub_distrib, Finset.sum_ite_eq', Finset.mem_univ, if_true]
  congr 1
  by_cases h : 0 < i.val
  · rw [if_pos h, Finset.sum_eq_single (⟨i.val - 1, by omega⟩ : Fin n)]
    · rw [if_pos]
      show i.val - 1 + 1 = i.val
      omega
    · intro j _ hj
      rw [if_neg]
      intro hji
      apply hj
      apply Fin.ext
      show j.val = i.val - 1
      omega
    · intro hmem
      exact absurd (Finset.mem_univ _) hmem
  · rw [if_neg h]
    apply Finset.sum_eq_zero
    intro j _
    rw [if_neg]
    omega

theorem diffMatrix_transpose_mulVec (n : Nat) (f : ℕ → ℚ) (i : Fin n) :
    (diffMatrix n).transpose.mulVec (fun j => f j.val) i
      = f i.val - (if i.val + 1 < n then f (i.val + 1) else 0) := by
  simp only [Matrix.mulVec, Matrix.dotProduct, diffMatrix, Matrix.transpose_apply,
    Matrix.of_apply]
  have hterm : ∀ j : Fin n,
      (if i = j then (1 : ℚ) else if i.val + 1 = j.val then -1 else 0) * f j.val
        = (if i = j then f i.val else 0)
          - (if i.val + 1 = j.val then f (i.val + 1) else 0) := by
    intro j
    by_cases h1 : i = j
    · subst h1
      simp
    · by_cases h2 : i.val + 1 = j.val
      · simp [h1, h2]
      · simp [h1, h2]
  simp only [hterm, Finset.sum_sub_distrib, Finset.sum_ite_eq, Finset.mem_univ, if_true]
  congr 1
  by_cases h : i.val + 1 < n
  · rw [if_pos h, Finset.sum_eq_single (⟨i.val + 1, h⟩ : Fin n)]
    · rw [if_pos rfl]
    · intro j _ hj
      rw [if_neg]
      intro hji
      apply hj
      apply Fin.ext
      show j.val = i.val + 1
      omega
    · intro hmem
      exact absurd (Finset.mem_univ _) hmem
  · rw [if_neg h]
    apply Finset.sum_eq_zero
    intro j _
    rw [if_neg]
    have := j.isLt
    omega

/-- The difference matrix is injective. -/
theorem diffMatrix_injective (n : Nat) (v : Fin n → ℚ) (h : (diffMatrix n).mulVec v = 0) :
    v = 0 := by
  have hv : (fun j : Fin n => (fun k : ℕ => if hk : k < n then v ⟨k, hk⟩ else 0) j.val) = v := by
    funext j
    simp [j.isLt]
  have hB : ∀ i : Fin n,
      (fun k : ℕ => if hk : k < n then v ⟨k, hk⟩ else 0) i.val
        - (if 0 < i.val then (fun k : ℕ => if hk : k < n then v ⟨k, hk⟩ else 0) (i.val - 1)
            else 0) = 0 := by
    intro i
    have h1 := diffMatrix_mulVec n (fun k : ℕ => if hk : k < n then v ⟨k, hk⟩ else 0) i
    rw [hv, h] at h1
    exact h1.symm
  have key : ∀ k (hk : k < n), v ⟨k, hk⟩ = 0 := by
    intro k
    induction k with
    | zero =>
      intro hk
      have := hB ⟨0, hk⟩
      simpa [hk] using this
    | succ k ih =>
      intro hk
      have := hB ⟨k + 1, hk⟩
      have hk' : k < n := by omega
      simpa [hk, hk', ih hk'] using this
  funext j
  exact key j.val j.isLt

theorem isSPD_chainMatrix (n : Nat) : IsSPD (chainMatrix n) := by
  refine ⟨?_, fun v hv => ?_⟩
  · simp [chainMatrix, Matrix.transpose_mul]
  · have hne : (diffMatrix n).mulVec v ≠ 0 := fun h => hv (diffMatrix_injective n v h)
    have := dot_self_pos hne
    rw [chainMatrix, ← Matrix.mulVec_mulVec, Matrix.dotProduct_mulVec,
      Matrix.vecMul_transpose]
    exact this

end Chain

section ChainRun

open Matrix

theorem chainMatrix_mulVec (n : Nat) (f : ℕ → ℚ) :
    (chainMatrix n).mulVec (fun j => f j.val)
      = fun i : Fin n => (f i.val - (if 0 < i.val then f (i.val - 1) else 0))
          - (if i.val + 1 < n then f (i.val + 1) - f i.val else 0) := by
  have hB : (diffMatrix n).mulVec (fun j => f j.val)
      = fun j : Fin n =>
          (fun m : ℕ => f m - (if 0 < m then f (m - 1) else 0)) j.val := by
    funext i
    exact diffMatrix_mulVec n f i
  funext i
  rw [chainMatrix, ← Matrix.mulVec_mulVec, hB]
  refine (diffMatrix_transpose_mulVec n
    (fun m : ℕ => f m - (if 0 < m then f (m - 1) else 0)) i).trans ?_
  simp

theorem chainMatrix_mulVec_direction (n k : Nat) (hk : k + 1 < n) :
    (chainMatrix n).mulVec (fun j => chainDirection k j.val)
      = fun i : Fin n => if i.val = k then ((k : ℚ) + 2) / (k + 1) ^ 2
          else if i.val = k + 1 then -1 / ((k : ℚ) + 1) else 0 := by
  rw [chainMatrix_mulVec]
  funext i
  have hi := i.isLt
  have hk1 : ((k : ℚ) + 1) ≠ 0 := by positivity
  simp only [chainDirection]
  rcases Nat.lt_trichotomy i.val k with hlt | heq | hgt
  · -- below `k`
    have h1 : i.val ≤ k := by omega
    have h2 : i.val + 1 ≤ k := by omega
    have h3 : i.val ≠ k := by omega
    have h4 : i.val ≠ k + 1 := by omega
    have h5 : i.val + 1 < n := by omega
    rw [if_pos h1, if_pos h2, if_pos h5, if_neg h3, if_neg h4]
    by_cases h0 : 0 < i.val
    · have h6 : i.val - 1 ≤ k := by omega
      have h7 : ((i.val - 1 : ℕ) : ℚ) = (i.val : ℚ) - 1 := by
        rw [Nat.cast_sub (by omega)]; simp
      rw [if_pos h0, if_pos h6, h7]
      push_cast
      field_simp
    · have h8 : i.val = 0 := by omega
      rw [if_neg h0, h8]
      push_cast
      field_simp
  · -- at `k`
    have h1 : i.val ≤ k := by omega
    have h2 : ¬ i.val + 1 ≤ k := by omega
    have h5 : i.val + 1 < n := by omega
    rw [if_pos h1, if_neg h2, if_pos h5, if_pos heq]
    by_cases h0 : 0 < i.val
    · have h6 : i.val - 1 ≤ k := by omega
      have h7 : ((i.val - 1 : ℕ) : ℚ) = (i.val : ℚ) - 1 := by
        rw [Nat.cast_sub (by omega)]; simp
      rw [if_pos h0, if_pos h6, h7, heq]
      field_simp
      ring
    · have h8 : i.val = 0 := by omega
      have h9 : k = 0 := by omega
      rw [if_neg h0, h8, h9]
      norm_num
  · -- above `k`
    have h1 : ¬ i.val ≤ k := by omega
    have h2 : ¬ i.val + 1 ≤ k := by omega
    have h3 : i.val ≠ k := by omega
    have h0 : 0 < i.val := by omega
    rw [if_neg h1, if_neg h2, if_pos h0, if_neg h3]
    by_cases h4 : i.val = k + 1
    · have h6 : i.val - 1 ≤ k := by omega
      have h7 : ((i.val - 1 : ℕ) : ℚ) = (k : ℚ) := by
        have : i.val - 1 = k := by omega
        rw [this]
      rw [if_pos h6, if_pos h4, h7]
      split_ifs <;> field_simp <;> ring
    · have h6 : ¬ i.val - 1 ≤ k := by omega
      rw [if_neg h6, if_neg h4]
      split_ifs <;> simp

theorem chainDirection_dot (n k : Nat) (hk : k + 1 < n) (a c : ℚ) :
    (fun j : Fin n => chainDirection k j.val) ⬝ᵥ
        (fun i : Fin n => if i.val = k then a else if i.val = k + 1 then c else 0)
      = 1 / (k + 1) * a := by
  have hk1 : ((k : ℚ) + 1) ≠ 0 := by positivity
  rw [Matrix.dotProduct, Finset.sum_eq_single (⟨k, by omega⟩ : Fin n)]
  · simp only [chainDirection, le_refl, if_true]
    field_simp
    ring
  · intro j _ hj
    have hjk : j.val ≠ k := fun h => hj (Fin.ext h)
    simp only [chainDirection]
    rw [if_neg hjk]
    by_cases h : j.val = k + 1
    · have : ¬ j.val ≤ k := by omega
      rw [if_neg this, zero_mul]
    · rw [if_neg h, mul_zero]
  · intro hmem
    exact absurd (Finset.mem_univ _) hmem

theorem chainResidual_dot (n k : Nat) (hk : k < n) :
    (fun j : Fin n => chainResidual k j.val) ⬝ᵥ (fun j : Fin n => chainResidual k j.val)
      = 1 / ((k : ℚ) + 1) ^ 2 := by
  have hk1 : ((k : ℚ) + 1) ≠ 0 := by positivity
  rw [Matrix.dotProduct, Finset.sum_eq_single (⟨k, hk⟩ : Fin n)]
  · simp only [chainResidual, if_true]
    field_simp
    ring
  · intro j _ hj
    have hjk : j.val ≠ k := fun h => hj (Fin.ext h)
    simp only [chainResidual]
    rw [if_neg hjk, mul_zero]
  · intro hmem
    exact absurd (Finset.mem_univ _) hmem

end ChainRun

section FiniteTerminationWitness

open Matrix

theorem isSPD_diag4 : IsSPD diag4 := by
  refine ⟨Matrix.diagonal_transpose _, fun v hv => ?_⟩
  have h := dot_self_pos hv
  simp only [diag4, Matrix.dotProduct, Fin.sum_univ_four, Matrix.mulVec_diagonal] at h ⊢
  have e0 : (![1, 2, 3, 4] : Fin 4 → ℚ) 0 = 1 := rfl
  have e1 : (![1, 2, 3, 4] : Fin 4 → ℚ) 1 = 2 := rfl
  have e2 : (![1, 2, 3, 4] : Fin 4 → ℚ) 2 = 3 := rfl
  have e3 : (![1, 2, 3, 4] : Fin 4 → ℚ) 3 = 4 := rfl
  rw [e0, e1, e2, e3]
  nlinarith [mul_self_nonneg (v 0), mul_self_nonneg (v 1), mul_self_nonneg (v 2),
    mul_self_nonneg (v 3)]

/-- C6, an instance: `n = 4`, `M = diag(1, 2, 3, 4)`, `b = (1, 1, 1, 1)`, `x = 0`,
`tol = 1e-10`, `maxiter = 50`. -/
theorem plain_cg_finite_termination_witness :
    IsSPD diag4 ∧
    (plainCG ℚ (Fin 4 → ℚ) (1 / 10 ^ 10) 50).K = none ∧
    ((4 : ℕ) : Int) ≤ (plainCG ℚ (Fin 4 → ℚ) (1 / 10 ^ 10) 50).invParam.maxiter ∧
    ∃ s' : State ℚ (Fin 4 → ℚ),
      (∀ extra, whileLoop (denseCollab diag4 (copyCollab ℚ 4))
          (plainCG ℚ (Fin 4 → ℚ) (1 / 10 ^ 10) 50) rhs4
          ((plainCG ℚ (Fin 4 → ℚ) (1 / 10 ^ 10) 50).invParam.maxiter.toNat + 1 + extra)
          (initState (denseCollab diag4 (copyCollab ℚ 4))
            (plainCG ℚ (Fin 4 → ℚ) (1 / 10 ^ 10) 50) 0 rhs4 true) = some s') ∧
      s'.r2 ≤ s'.stop ∧
      s'.stop = (rhs4 ⬝ᵥ rhs4) * (plainCG ℚ (Fin 4 → ℚ) (1 / 10 ^ 10) 50).invParam.tol ^ 2 ∧
      0 ≤ s'.k ∧ s'.k ≤ (4 : ℕ) ∧
      (rhs4 - diag4.mulVec s'.x) ⬝ᵥ (rhs4 - diag4.mulVec s'.x)
        ≤ (rhs4 ⬝ᵥ rhs4) * (plainCG ℚ (Fin 4 → ℚ) (1 / 10 ^ 10) 50).invParam.tol ^ 2 :=
  have hK : (plainCG ℚ (Fin 4 → ℚ) (1 / 10 ^ 10) 50).K = none := by simp only [plainCG]
  have hmax : ((4 : ℕ) : Int) ≤ (plainCG ℚ (Fin 4 → ℚ) (1 / 10 ^ 10) 50).invParam.maxiter := by
    simp only [plainCG]; decide
  ⟨isSPD_diag4, hK, hmax,
    plain_cg_finite_termination diag4 isSPD_diag4 (copyCollab ℚ 4)
      (plainCG ℚ (Fin 4 → ℚ) (1 / 10 ^ 10) 50) hK hmax 0 rhs4 true⟩

end FiniteTerminationWitness

section ChainCounterexample

open Matrix

theorem firstUnit_eq : firstUnit = fun i : Fin 51 => chainResidual 0 i.val := by
  funext i
  simp [firstUnit, chainResidual]

theorem chainDirection_zero :
    (fun i : Fin 51 => chainDirection 0 i.val) = fun i : Fin 51 => chainResidual 0 i.val := by
  funext i
  by_cases h : i.val = 0
  · simp [chainDirection, chainResidual, h]
  · have : ¬ i.val ≤ 0 := by omega
    simp [chainDirection, chainResidual, h]

theorem chainRun_zero :
    chainRun 0 = initState (denseCollab (chainMatrix 51) (copyCollab ℚ 51))
      (plainCG ℚ (Fin 51 → ℚ) (1 / 10 ^ 10) 50) 0 firstUnit true := rfl

theorem chainRun_succ (k : Nat) :
    chainRun (k + 1) = loopBody (denseCollab (chainMatrix 51) (copyCollab ℚ 51))
      (plainCG ℚ (Fin 51 → ℚ) (1 / 10 ^ 10) 50) firstUnit (chainRun k) := rfl

theorem chainRun_r2 (k : Nat) : (chainRun k).r2 = (chainRun k).r ⬝ᵥ (chainRun k).r := by
  rw [chainRun]
  exact iterState_none_r2 (denseCollab (chainMatrix 51) (copyCollab ℚ 51))
    (plainCG ℚ (Fin 51 → ℚ) (1 / 10 ^ 10) 50) rfl 0 firstUnit true k

theorem chainRun_stop (k : Nat) : (chainRun k).stop = 1 / 10 ^ 20 := by
  rw [chainRun, iterState_stop, initState_stop, denseCollab_norm2, firstUnit_eq,
    chainResidual_dot 51 0 (by omega)]
  simp only [plainCG]
  norm_num

theorem chainRun_k (k : Nat) : (chainRun k).k = k := by
  rw [chainRun, iterState_k, initState_k, zero_add]

/-- One pass on the chain matrix, in closed form. -/
theorem chainRun_step (k : Nat) (hk : k + 1 ≤ 50)
    (hr : (chainRun k).r = fun i : Fin 51 => chainResidual k i.val)
    (hp : (chainRun k).p = fun i : Fin 51 => chainDirection k i.val)
    (hr2 : (chainRun k).r2 = 1 / ((k : ℚ) + 1) ^ 2) :
    (chainRun (k + 1)).r = (fun i : Fin 51 => chainResidual (k + 1) i.val) ∧
    (chainRun (k + 1)).p = (fun i : Fin 51 => chainDirection (k + 1) i.val) ∧
    (chainRun (k + 1)).r2 = 1 / (((k + 1 : ℕ) : ℚ) + 1) ^ 2 := by
  obtain ⟨ha, hrn, -, hb, -, hpn, -, -⟩ :=
    loopBody_none (denseCollab (chainMatrix 51) (copyCollab ℚ 51))
      (plainCG ℚ (Fin 51 → ℚ) (1 / 10 ^ 10) 50) rfl firstUnit (chainRun k)
  rw [← chainRun_succ] at ha hrn hb hpn
  have hk1 : ((k : ℚ) + 1) ≠ 0 := by positivity
  have hk2 : ((k : ℚ) + 1 + 1) ≠ 0 := by positivity
  have hk3 : ((k : ℚ) + 2) ≠ 0 := by positivity
  have hMp := chainMatrix_mulVec_direction 51 k (by omega)
  have hα : (chainRun (k + 1)).alpha = ((k : ℚ) + 1) / (k + 2) := by
    rw [ha, denseCollab_dot, denseCollab_mat, hp, hMp, chainDirection_dot 51 k (by omega),
      hr2]
    field_simp
  have hrnew : (chainRun (k + 1)).r = fun i : Fin 51 => chainResidual (k + 1) i.val := by
    rw [hrn, hα, denseCollab_mat, hp, hMp, hr]
    funext i
    simp only [Pi.sub_apply, Pi.smul_apply, smul_eq_mul, chainResidual]
    by_cases h1 : i.val = k
    · have h2 : i.val ≠ k + 1 := by omega
      rw [if_pos h1, if_pos h1, if_neg h2]
      field_simp
      ring
    · by_cases h2 : i.val = k + 1
      · rw [if_neg h1, if_neg h1, if_pos h2, if_pos h2]
        push_cast
        field_simp
        ring
      · rw [if_neg h1, if_neg h1, if_neg h2, if_neg h2]
        ring
  have hr2new : (chainRun (k + 1)).r2 = 1 / (((k + 1 : ℕ) : ℚ) + 1) ^ 2 := by
    rw [chainRun_r2, hrnew, chainResidual_dot 51 (k + 1) (by omega)]
  refine ⟨hrnew, ?_, hr2new⟩
  rw [hpn, hb, hr2new, hr2, hrnew, hp]
  funext i
  simp only [Pi.add_apply, Pi.smul_apply, smul_eq_mul, chainResidual, chainDirection]
  push_cast
  by_cases h1 : i.val ≤ k
  · have h2 : i.val ≠ k + 1 := by omega
    have h3 : i.val ≤ k + 1 := by omega
    rw [if_neg h2, if_pos h1, if_pos h3]
    field_simp
    ring
  · by_cases h2 : i.val = k + 1
    · have h3 : i.val ≤ k + 1 := by omega
      rw [if_pos h2, if_neg h1, if_pos h3, h2]
      push_cast
      field_simp
      ring
    · have h3 : ¬ i.val ≤ k + 1 := by omega
      rw [if_neg h2, if_neg h1, if_neg h3]
      ring

/-- The closed form of the run on the chain matrix: after `k ≤ 50` passes the residual
is `e_k/(k+1)`, the direction is `chainDirection k`, and `r2 = 1/(k+1)²`. -/
theorem chainRun_closed_form :
    ∀ k, k ≤ 50 →
      (chainRun k).r = (fun i : Fin 51 => chainResidual k i.val) ∧
      (chainRun k).p = (fun i : Fin 51 => chainDirection k i.val) ∧
      (chainRun k).r2 = 1 / ((k : ℚ) + 1) ^ 2 := by
  intro k
  induction k with
  | zero =>
    intro _
    have hr : (chainRun 0).r = fun i : Fin 51 => chainResidual 0 i.val := by
      rw [chainRun_zero, initState_r, denseCollab_mat, mulVec_zero, sub_zero, firstUnit_eq]
    have hp : (chainRun 0).p = (chainRun 0).r := by
      rw [chainRun_zero]
      exact (initState_none (denseCollab (chainMatrix 51) (copyCollab ℚ 51))
        (plainCG ℚ (Fin 51 → ℚ) (1 / 10 ^ 10) 50) rfl 0 firstUnit true).1
    refine ⟨hr, ?_, ?_⟩
    · rw [hp, hr, chainDirection_zero]
    · rw [chainRun_r2, hr, chainResidual_dot 51 0 (by omega)]
  | succ k ih =>
    intro hk
    obtain ⟨hr, hp, hr2⟩ := ih (by omega)
    exact chainRun_step k hk hr hp hr2

theorem chainRun_r2_gt_stop (k : Nat) (hk : k ≤ 50) : (chainRun k).stop < (chainRun k).r2 := by
  rw [chainRun_stop, (chainRun_closed_form k hk).2.2]
  have h1 : (0 : ℚ) < (k : ℚ) + 1 := by positivity
  have h2 : (k : ℚ) + 1 ≤ 51 := by
    have : (k : ℚ) ≤ 50 := by exact_mod_cast hk
    linarith
  have h3 : ((k : ℚ) + 1) ^ 2 ≤ 51 ^ 2 := by gcongr
  have h4 : (1 : ℚ) / 51 ^ 2 ≤ 1 / ((k : ℚ) + 1) ^ 2 :=
    one_div_le_one_div_of_le (by positivity) h3
  have h5 : (1 : ℚ) / 10 ^ 20 < 1 / 51 ^ 2 := by norm_num
  exact lt_of_lt_of_le h5 h4

theorem chainRun_cond (i : Nat) (hi : i < 50) :
    loopCond (plainCG ℚ (Fin 51 → ℚ) (1 / 10 ^ 10) 50) (chainRun i) = true := by
  simp only [loopCond, Bool.and_eq_true, decide_eq_true_eq, gt_iff_lt]
  refine ⟨chainRun_r2_gt_stop i (by omega), ?_⟩
  rw [chainRun_k]
  simp only [plainCG]
  omega

theorem chainRun_cond_last :
    loopCond (plainCG ℚ (Fin 51 → ℚ) (1 / 10 ^ 10) 50) (chainRun 50) = false := by
  simp only [loopCond, Bool.and_eq_false_iff, decide_eq_false_iff_not, not_lt]
  right
  rw [chainRun_k]
  simp only [plainCG]
  omega

theorem chainRun_eq (j : Nat) :
    iterState (denseCollab (chainMatrix 51) (copyCollab ℚ 51))
      (plainCG ℚ (Fin 51 → ℚ) (1 / 10 ^ 10) 50) firstUnit
      (initState (denseCollab (chainMatrix 51) (copyCollab ℚ 51))
        (plainCG ℚ (Fin 51 → ℚ) (1 / 10 ^ 10) 50) 0 firstUnit true) j = chainRun j := rfl

theorem chainRun_direction_ne_zero (i : Nat) (hi : i < 50) : (chainRun i).p ≠ 0 := by
  have h := plain_direction_ne_zero (chainMatrix 51) (isSPD_chainMatrix 51)
    (copyCollab ℚ 51) (plainCG ℚ (Fin 51 → ℚ) (1 / 10 ^ 10) 50) rfl 0 firstUnit true i
  simp only [chainRun_eq] at h
  refine h (fun i' hi' => ?_) i le_rfl
  have h1 := chainRun_r2_gt_stop i' (by omega)
  rw [chainRun_stop] at h1
  exact ne_of_gt (lt_trans (by positivity) h1)

theorem chainRun_residual :
    (firstUnit - (chainMatrix 51).mulVec (chainRun 50).x) ⬝ᵥ
      (firstUnit - (chainMatrix 51).mulVec (chainRun 50).x) = 1 / 51 ^ 2 := by
  have hres := dense_invariants (chainMatrix 51) (isSPD_chainMatrix 51) (copyCollab ℚ 51)
    (plainCG ℚ (Fin 51 → ℚ) (1 / 10 ^ 10) 50) 0 firstUnit true 50
  simp only [chainRun_eq] at hres
  rw [← (hres chainRun_direction_ne_zero).1, ← chainRun_r2,
    (chainRun_closed_form 50 le_rfl).2.2]
  norm_num

/-- The run on the chain matrix leaves the loop after 50 passes. -/
theorem chainRun_loop (extra : Nat) :
    whileLoop (denseCollab (chainMatrix 51) (copyCollab ℚ 51))
        (plainCG ℚ (Fin 51 → ℚ) (1 / 10 ^ 10) 50) firstUnit (50 + 1 + extra)
        (initState (denseCollab (chainMatrix 51) (copyCollab ℚ 51))
          (plainCG ℚ (Fin 51 → ℚ) (1 / 10 ^ 10) 50) 0 firstUnit true)
      = some { chainRun 50 with condEvals := 51 } := by
  have hrun := whileLoop_run (denseCollab (chainMatrix 51) (copyCollab ℚ 51))
    (plainCG ℚ (Fin 51 → ℚ) (1 / 10 ^ 10) 50) firstUnit 50 (50 + 1 + extra)
    (initState (denseCollab (chainMatrix 51) (copyCollab ℚ 51))
      (plainCG ℚ (Fin 51 → ℚ) (1 / 10 ^ 10) 50) 0 firstUnit true) (by omega)
  simp only [chainRun_eq, initState_condEvals, Nat.zero_add] at hrun
  exact hrun chainRun_cond chainRun_cond_last

/-- C6, counterexample.  For the symmetric positive definite `chainMatrix 51` (51
rows), `b` the first unit vector, `x = 0`, `tol = 1e-10`, `maxiter = 50` and no inner
solver, the loop returns after 50 passes with `r2 = 1/51² > stop = 1e-20`, and the
returned `x` has `‖b − M x‖² = 1/51² > ‖b‖² · tol²`. -/
theorem finite_termination_counterexample :
    IsSPD (chainMatrix 51) ∧
    (plainCG ℚ (Fin 51 → ℚ) (1 / 10 ^ 10) 50).K = none ∧
    (plainCG ℚ (Fin 51 → ℚ) (1 / 10 ^ 10) 50).invParam.tol = 1 / 10 ^ 10 ∧
    (plainCG ℚ (Fin 51 → ℚ) (1 / 10 ^ 10) 50).invParam.maxiter = 50 ∧
    ∃ s' : State ℚ (Fin 51 → ℚ),
      (∀ extra, whileLoop (denseCollab (chainMatrix 51) (copyCollab ℚ 51))
          (plainCG ℚ (Fin 51 → ℚ) (1 / 10 ^ 10) 50) firstUnit (50 + 1 + extra)
          (initState (denseCollab (chainMatrix 51) (copyCollab ℚ 51))
            (plainCG ℚ (Fin 51 → ℚ) (1 / 10 ^ 10) 50) 0 firstUnit true) = some s') ∧
      s'.k = 50 ∧ s'.r2 = 1 / 51 ^ 2 ∧ s'.stop = 1 / 10 ^ 20 ∧ ¬ s'.r2 ≤ s'.stop ∧
      (firstUnit - (chainMatrix 51).mulVec s'.x) ⬝ᵥ (firstUnit - (chainMatrix 51).mulVec s'.x)
        = 1 / 51 ^ 2 ∧
      ¬ (firstUnit - (chainMatrix 51).mulVec s'.x) ⬝ᵥ
          (firstUnit - (chainMatrix 51).mulVec s'.x)
        ≤ (firstUnit ⬝ᵥ firstUnit) * (1 / 10 ^ 10) ^ 2 := by
  have hb : firstUnit ⬝ᵥ firstUnit = 1 := by
    rw [firstUnit_eq, chainResidual_dot 51 0 (by omega)]; norm_num
  have hr2 : (chainRun 50).r2 = 1 / 51 ^ 2 := by
    rw [(chainRun_closed_form 50 le_rfl).2.2]; norm_num
  have hk : (chainRun 50).k = 50 := by
    rw [chainRun_k]; rfl
  have hgt : ¬ (chainRun 50).r2 ≤ (chainRun 50).stop :=
    not_le.mpr (chainRun_r2_gt_stop 50 le_rfl)
  have hnot : ¬ (firstUnit - (chainMatrix 51).mulVec (chainRun 50).x) ⬝ᵥ
        (firstUnit - (chainMatrix 51).mulVec (chainRun 50).x)
      ≤ (firstUnit ⬝ᵥ firstUnit) * (1 / 10 ^ 10) ^ 2 := by
    rw [chainRun_residual, hb]
    norm_num
  have htol : (plainCG ℚ (Fin 51 → ℚ) (1 / 10 ^ 10) 50).invParam.tol = 1 / 10 ^ 10 := by
    simp only [plainCG]
  have hmax : (plainCG ℚ (Fin 51 → ℚ) (1 / 10 ^ 10) 50).invParam.maxiter = 50 := by
    simp only [plainCG]
  have hK : (plainCG ℚ (Fin 51 → ℚ) (1 / 10 ^ 10) 50).K = none := by
    simp only [plainCG]
  have key : ∀ s : State ℚ (Fin 51 → ℚ),
      (∀ extra, whileLoop (denseCollab (chainMatrix 51) (copyCollab ℚ 51))
          (plainCG ℚ (Fin 51 → ℚ) (1 / 10 ^ 10) 50) firstUnit (50 + 1 + extra)
          (initState (denseCollab (chainMatrix 51) (copyCollab ℚ 51))
            (plainCG ℚ (Fin 51 → ℚ) (1 / 10 ^ 10) 50) 0 firstUnit true)
        = some { s with condEvals := 51 }) →
      s.k = 50 → s.r2 = 1 / 51 ^ 2 → s.stop = 1 / 10 ^ 20 → ¬ s.r2 ≤ s.stop →
      (firstUnit - (chainMatrix 51).mulVec s.x) ⬝ᵥ (firstUnit - (chainMatrix 51).mulVec s.x)
        = 1 / 51 ^ 2 →
      ¬ (firstUnit - (chainMatrix 51).mulVec s.x) ⬝ᵥ
          (firstUnit - (chainMatrix 51).mulVec s.x)
        ≤ (firstUnit ⬝ᵥ firstUnit) * (1 / 10 ^ 10) ^ 2 →
      ∃ s' : State ℚ (Fin 51 → ℚ),
        (∀ extra, whileLoop (denseCollab (chainMatrix 51) (copyCollab ℚ 51))
            (plainCG ℚ (Fin 51 → ℚ) (1 / 10 ^ 10) 50) firstUnit (50 + 1 + extra)
            (initState (denseCollab (chainMatrix 51) (copyCollab ℚ 51))
              (plainCG ℚ (Fin 51 → ℚ) (1 / 10 ^ 10) 50) 0 firstUnit true) = some s') ∧
        s'.k = 50 ∧ s'.r2 = 1 / 51 ^ 2 ∧ s'.stop = 1 / 10 ^ 20 ∧ ¬ s'.r2 ≤ s'.stop ∧
        (firstUnit - (chainMatrix 51).mulVec s'.x) ⬝ᵥ
            (firstUnit - (chainMatrix 51).mulVec s'.x) = 1 / 51 ^ 2 ∧
        ¬ (firstUnit - (chainMatrix 51).mulVec s'.x) ⬝ᵥ
            (firstUnit - (chainMatrix 51).mulVec s'.x)
          ≤ (firstUnit ⬝ᵥ firstUnit) * (1 / 10 ^ 10) ^ 2 :=
    fun s h1 h2 h3 h4 h5 h6 h7 => ⟨{ s with condEvals := 51 }, h1, h2, h3, h4, h5, h6, h7⟩
  exact ⟨isSPD_chainMatrix 51, hK, htol, hmax,
    key (chainRun 50) chainRun_loop hk hr2 (chainRun_stop 50) hgt chainRun_residual hnot⟩

end ChainCounterexample

/-! ## The preconditioned recurrence -/

section PreconRecurrence

variable {𝕜 V : Type} [LinearOrderedField 𝕜] [AddCommGroup V] [Module 𝕜 V]

/-- What one preconditioner application computes, whatever the overlap: `z` is the
inner-solve output for the residual (extended first and cropped afterwards when
`max_overlap` is not zero), the flag ends up true, and the events are appended to the
trace in program order. -/
theorem applyPreconditioner_eq (c : Collaborators 𝕜 V) (self : PreconCG 𝕜 V) (b : V)
    (K : InnerSolver V) (r : V) (trace : List Event) :
    (applyPreconditioner c self b K r trace).minvr
      = (if maxOverlap self.Kparam.domain_overlap ≠ 0 then
          c.cropCuda (K false
            (c.extendCuda r (dparamOf c self b) fun dir => self.invParam.domain_overlap dir)
            (c.extendCuda r (dparamOf c self b) fun dir => self.invParam.domain_overlap dir)).1
            (dparamOf c self b)
        else (K false r r).1) ∧
    (applyPreconditioner c self b K r trace).globalReduce = true ∧
    (applyPreconditioner c self b K r trace).trace
      = trace ++ ((if maxOverlap self.Kparam.domain_overlap ≠ 0 then [Event.extendCall] else [])
          ++ [Event.setGlobalReduce false, Event.innerSolve false, Event.setGlobalReduce true]
          ++ (if maxOverlap self.Kparam.domain_overlap ≠ 0 then [Event.cropCall] else [])) := by
  by_cases h : maxOverlap self.Kparam.domain_overlap = 0
  · simp [applyPreconditioner, h]
  · simp [applyPreconditioner, h]

/-- The trace of a pass with inner solver `K`: operator application, the reductions for
`pAp`, for the new norm and for the cross term, the preconditioner application, the
reduction for the new `⟨r, z⟩`. -/
theorem loopBody_some_trace (c : Collaborators 𝕜 V) (self : PreconCG 𝕜 V) (K : InnerSolver V)
    (hK : self.K = some K) (b : V) (s : State 𝕜 V) :
    (loopBody c self b s).trace
      = s.trace ++ ([Event.matApply, Event.reduction s.globalReduce,
            Event.reduction s.globalReduce, Event.reduction s.globalReduce]
          ++ ((if maxOverlap self.Kparam.domain_overlap ≠ 0 then [Event.extendCall] else [])
            ++ [Event.setGlobalReduce false, Event.innerSolve false,
              Event.setGlobalReduce true]
            ++ (if maxOverlap self.Kparam.domain_overlap ≠ 0 then [Event.cropCall] else []))
          ++ [Event.reduction true]) ∧
    (loopBody c self b s).globalReduce = true ∧
    (loopBody c self b s).minvr
      = (if maxOverlap self.Kparam.domain_overlap ≠ 0 then
          c.cropCuda (K false
            (c.extendCuda (loopBody c self b s).r (dparamOf c self b)
              fun dir => self.invParam.domain_overlap dir)
            (c.extendCuda (loopBody c self b s).r (dparamOf c self b)
              fun dir => self.invParam.domain_overlap dir)).1
            (dparamOf c self b)
        else (K false (loopBody c self b s).r (loopBody c self b s).r).1) := by
  simp only [loopBody, hK]
  refine ⟨?_, ?_, ?_⟩
  · rw [(applyPreconditioner_eq c self b K _ _).2.2, (applyPreconditioner_eq c self b K _ _).2.1]
    simp only [List.append_assoc, List.cons_append, List.nil_append, List.singleton_append]
  · exact (applyPreconditioner_eq c self b K _ _).2.1
  · exact (applyPreconditioner_eq c self b K _ _).1

theorem iterState_some_rMinvr (c : Collaborators 𝕜 V) (self : PreconCG 𝕜 V)
    (K : InnerSolver V) (hK : self.K = some K) (x b : V) (g : Bool) (j : Nat) :
    (iterState c self b (initState c self x b g) j).rMinvr
      = c.reDotProductCuda (iterState c self b (initState c self x b g) j).r
          (iterState c self b (initState c self x b g) j).minvr := by
  cases j with
  | zero => exact (initState_some c self K hK x b g).2
  | succ j => exact (loopBody_some c self K hK b _).2.2.2.1

/-- C11.  Preconditioned recurrence.  With inner solver `K`, in every pass through the
loop body, entered in state `s` with residual `r_old`, preconditioner output `z_old`
and direction `p`: `alpha = ⟨r_old, z_old⟩ / ⟨p, A p⟩`; `r_new = r_old − alpha·A p`;
the cross term is `⟨r_new, z_old⟩`, taken with the `z` of the state the pass was
entered in, and its reduction precedes the inner solve in the trace; `z_new` is the
inner-solve output for `r_new` (for the extended `r_new`, and cropped, when
`max_overlap` is not zero); `beta = (⟨r_new, z_new⟩ − ⟨r_new, z_old⟩) / ⟨r_old, z_old⟩`;
and the update is `x ← x + alpha·p`, `p ← z_new + beta·p`. -/
theorem preconditioned_recurrence (c : Collaborators 𝕜 V) (self : PreconCG 𝕜 V)
    (K : InnerSolver V) (hK : self.K = some K) (x b : V) (g : Bool) :
    ∀ j s, s = iterState c self b (initState c self x b g) j →
      s.rMinvr = c.reDotProductCuda s.r s.minvr ∧
      (loopBody c self b s).alpha
        = c.reDotProductCuda s.r s.minvr / c.reDotProductCuda s.p (c.mat s.p) ∧
      (loopBody c self b s).r = s.r - (loopBody c self b s).alpha • c.mat s.p ∧
      (loopBody c self b s).r_new_Minvr_old
        = c.reDotProductCuda (loopBody c self b s).r s.minvr ∧
      (loopBody c self b s).minvr
        = (if maxOverlap self.Kparam.domain_overlap ≠ 0 then
            c.cropCuda (K false
              (c.extendCuda (loopBody c self b s).r (dparamOf c self b)
                fun dir => self.invParam.domain_overlap dir)
              (c.extendCuda (loopBody c self b s).r (dparamOf c self b)
                fun dir => self.invParam.domain_overlap dir)).1
              (dparamOf c self b)
          else (K false (loopBody c self b s).r (loopBody c self b s).r).1) ∧
      (loopBody c self b s).beta
        = (c.reDotProductCuda (loopBody c self b s).r (loopBody c self b s).minvr
            - c.reDotProductCuda (loopBody c self b s).r s.minvr)
          / c.reDotProductCuda s.r s.minvr ∧
      (loopBody c self b s).x = s.x + (loopBody c self b s).alpha • s.p ∧
      (loopBody c self b s).p
        = (loopBody c self b s).minvr + (loopBody c self b s).beta • s.p ∧
      (loopBody c self b s).trace
        = s.trace ++ ([Event.matApply, Event.reduction s.globalReduce,
              Event.reduction s.globalReduce, Event.reduction s.globalReduce]
            ++ ((if maxOverlap self.Kparam.domain_overlap ≠ 0 then [Event.extendCall]
                  else [])
              ++ [Event.setGlobalReduce false, Event.innerSolve false,
                Event.setGlobalReduce true]
              ++ (if maxOverlap self.Kparam.domain_overlap ≠ 0 then [Event.cropCall]
                  else []))
            ++ [Event.reduction true]) := by
  rintro j s rfl
  have hinv := iterState_some_rMinvr c self K hK x b g j
  obtain ⟨ha, hr, -, hrz, hold, hcross, hbeta, hx, hp⟩ := loopBody_some c self K hK b
    (iterState c self b (initState c self x b g) j)
  obtain ⟨htr, -, hz⟩ := loopBody_some_trace c self K hK b
    (iterState c self b (initState c self x b g) j)
  refine ⟨hinv, ?_, hr, hcross, hz, ?_, hx, hp, htr⟩
  · rw [ha, hinv]
  · rw [hbeta, hrz, hcross, hold, hinv]

/-- C11, an instance: one-component fields, zero overlap, the inner solver that returns
its right-hand side. -/
theorem preconditioned_recurrence_witness :
    (preconCG ℚ (copySolver ℚ) 0 5).K = some (copySolver ℚ) ∧
    (loopBody (scalarCollab id) (preconCG ℚ (copySolver ℚ) 0 5) 1
        (initState (scalarCollab id) (preconCG ℚ (copySolver ℚ) 0 5) 0 1 true)).p
      = (loopBody (scalarCollab id) (preconCG ℚ (copySolver ℚ) 0 5) 1
          (initState (scalarCollab id) (preconCG ℚ (copySolver ℚ) 0 5) 0 1 true)).minvr
        + (loopBody (scalarCollab id) (preconCG ℚ (copySolver ℚ) 0 5) 1
            (initState (scalarCollab id) (preconCG ℚ (copySolver ℚ) 0 5) 0 1 true)).beta
          • (initState (scalarCollab id) (preconCG ℚ (copySolver ℚ) 0 5) 0 1 true).p :=
  ⟨rfl,
    (preconditioned_recurrence (scalarCollab id) (preconCG ℚ (copySolver ℚ) 0 5)
      (copySolver ℚ) rfl 0 1 true 0 _ rfl).2.2.2.2.2.2.2.1⟩

end PreconRecurrence

/-! ## Scope of the global-reduction flag in a run -/

section FlagScope

variable {𝕜 V : Type} [LinearOrderedField 𝕜] [AddCommGroup V] [Module 𝕜 V]

theorem replayFlag_append (l₁ l₂ : List Event) :
    ∀ m, replayFlag m (l₁ ++ l₂) = (replayFlag m l₁).bind fun m' => replayFlag m' l₂ := by
  induction l₁ with
  | nil => intro m; rfl
  | cons e l ih =>
    intro m
    simp only [List.cons_append, replayFlag]
    cases flagStep m e with
    | none => rfl
    | some m' => exact ih m'

/-- A trace that replays without violation has no reduction with the flag false and no
inner solve with the flag true. -/
theorem replayFlag_sound (l : List Event) :
    ∀ m m', replayFlag m l = some m' →
      (∀ g, Event.innerSolve g ∈ l → g = false) ∧ (∀ g, Event.reduction g ∈ l → g = true) := by
  induction l with
  | nil => intro m m' _; simp
  | cons e l ih =>
    intro m m' h
    simp only [replayFlag] at h
    cases hstep : flagStep m e with
    | none => rw [hstep] at h; simp at h
    | some m₁ =>
      rw [hstep] at h
      obtain ⟨h1, h2⟩ := ih m₁ m' h
      refine ⟨fun g hg => ?_, fun g hg => ?_⟩
      · rcases List.mem_cons.mp hg with rfl | hg'
        · cases m <;> cases g <;> simp [flagStep] at hstep ⊢
        · exact h1 g hg'
      · rcases List.mem_cons.mp hg with rfl | hg'
        · cases m <;> cases g <;> simp [flagStep] at hstep ⊢
        · exact h2 g hg'

theorem initState_flag (c : Collaborators 𝕜 V) (self : PreconCG 𝕜 V) (x b : V) :
    replayFlag FlagMode.on (initState c self x b true).trace = some FlagMode.on ∧
    (initState c self x b true).globalReduce = true := by
  rcases hK : self.K with _ | K
  · simp [initState, hK, replayFlag, flagStep]
  · by_cases h : maxOverlap self.Kparam.domain_overlap = 0
    · simp [initState, hK, applyPreconditioner, h, replayFlag, flagStep]
    · simp [initState, hK, applyPreconditioner, h, replayFlag, flagStep]

theorem loopBody_flag (c : Collaborators 𝕜 V) (self : PreconCG 𝕜 V) (b : V) (s : State 𝕜 V)
    (hg : s.globalReduce = true)
    (hs : replayFlag FlagMode.on s.trace = some FlagMode.on) :
    replayFlag FlagMode.on (loopBody c self b s).trace = some FlagMode.on ∧
    (loopBody c self b s).globalReduce = true := by
  rcases hK : self.K with _ | K
  · obtain ⟨-, -, -, -, -, -, htr, hgr⟩ := loopBody_none c self hK b s
    rw [htr, hgr, hg, replayFlag_append, hs]
    simp [replayFlag, flagStep]
  · obtain ⟨htr, hgr, -⟩ := loopBody_some_trace c self K hK b s
    rw [htr, hgr, hg, replayFlag_append, hs]
    by_cases h : maxOverlap self.Kparam.domain_overlap = 0
    · simp [h, replayFlag, flagStep]
    · simp [h, replayFlag, flagStep]

theorem iterState_flag (c : Collaborators 𝕜 V) (self : PreconCG 𝕜 V) (x b : V) (j : Nat) :
    replayFlag FlagMode.on (iterState c self b (initState c self x b true) j).trace
      = some FlagMode.on ∧
    (iterState c self b (initState c self x b true) j).globalReduce = true := by
  induction j with
  | zero => exact initState_flag c self x b
  | succ j ih => exact loopBody_flag c self b _ ih.2 ih.1

/-- C12, as the code has it.  A run of `operator()` that is entered with `globalReduce`
true returns, and its trace replays without violation of the scope of the flag: the
flag is switched off only immediately before a call of the inner solver, every call of
the inner solver sees it false, it is switched on again immediately after the call
returns, every reduction of the driver (and every operator application, extend and
crop) happens with the flag true, and the flag is true when the solve returns. -/
theorem reduction_scope (c : Collaborators 𝕜 V) (self : PreconCG 𝕜 V) (x b : V) :
    ∃ res, (∀ extra, self.solve c (self.invParam.maxiter.toNat + 1 + extra) x b true
        = some res) ∧
      replayFlag FlagMode.on res.final.trace = some FlagMode.on ∧
      res.final.globalReduce = true ∧
      (∀ g, Event.innerSolve g ∈ res.final.trace → g = false) ∧
      (∀ g, Event.reduction g ∈ res.final.trace → g = true) := by
  obtain ⟨j, _, _, _, hres⟩ := solve_result c self x b true
  obtain ⟨htr, hg⟩ := iterState_flag c self x b j
  have hfin : replayFlag FlagMode.on
      (finish c self b { iterState c self b (initState c self x b true) j with
        condEvals := j + 1 }).final.trace = some FlagMode.on := by
    simp only [finish, replayFlag_append, htr, hg]
    simp [replayFlag, flagStep]
  refine ⟨_, hres, hfin, hg, ?_, ?_⟩
  · exact (replayFlag_sound _ _ _ hfin).1
  · exact (replayFlag_sound _ _ _ hfin).2

/-- C12, counterexample.  Entered with `globalReduce` false (one-component fields, the
inner solver that returns its right-hand side), the driver performs its first reduction,
the norm of the initial residual, with the flag false; and without inner solver the
flag is still false when the solve returns. -/
theorem reduction_scope_counterexample :
    ((preconCG ℚ (copySolver ℚ) 0 5).solve (scalarCollab id) 6 0 1 false).map
      (fun res => res.final.trace.take 2) = some [Event.matApply, Event.reduction false] ∧
    ((preconCG ℚ (copySolver ℚ) 0 5).solve (scalarCollab id) 6 0 1 false).map
      (fun res => decide (Event.reduction false ∈ res.final.trace)) = some true ∧
    ((plainCG ℚ ℚ 0 5).solve (scalarCollab id) 6 0 1 false).map
      (fun res => res.final.globalReduce) = some false := by
  refine ⟨?_, ?_, ?_⟩
  · simp [PreconCG.solve, whileLoop, loopCond, loopBody, initState, preconCG, copySolver,
      applyPreconditioner, maxOverlap, scalarCollab, finish, zeroParam, xmyNormCuda, norm2,
      axpyCGNormCuda, axpyZpbxCuda]
  · simp [PreconCG.solve, whileLoop, loopCond, loopBody, initState, preconCG, copySolver,
      applyPreconditioner, maxOverlap, scalarCollab, finish, zeroParam, xmyNormCuda, norm2,
      axpyCGNormCuda, axpyZpbxCuda]
  · simp [PreconCG.solve, whileLoop, loopCond, loopBody, initState, plainCG, scalarCollab,
      finish, zeroParam, xmyNormCuda, norm2, axpyCGNormCuda, axpyZpbxCuda]

end FlagScope

/-! ## Objects made by the constructor -/

section Constructed

variable {𝕜 V : Type} [LinearOrderedField 𝕜] [AddCommGroup V] [Module 𝕜 V]

theorem ctor_K (SimpleCG : QudaInvertParam 𝕜 → InnerSolver V)
    (newQudaInvertParam invParam : QudaInvertParam 𝕜) :
    (PreconCG.ctor SimpleCG newQudaInvertParam invParam).K
      = some (SimpleCG (PreconCG_Kparam newQudaInvertParam invParam)) := rfl

/-- With an inner solver, line 279 (`r2_old = r2`) is not executed: `r2_old` keeps its
value. -/
theorem loopBody_some_r2_old (c : Collaborators 𝕜 V) (self : PreconCG 𝕜 V)
    (K : InnerSolver V) (hK : self.K = some K) (b : V) (s : State 𝕜 V) :
    (loopBody c self b s).r2_old = s.r2_old := by
  simp only [loopBody, hK]

theorem initState_some_r2_old (c : Collaborators 𝕜 V) (self : PreconCG 𝕜 V)
    (K : InnerSolver V) (hK : self.K = some K) (x b : V) (g : Bool) :
    (initState c self x b g).r2_old = 0 ∧
    Event.innerSolve false ∈ (initState c self x b g).trace := by
  obtain ⟨-, -, htr⟩ := applyPreconditioner_eq c self b K (xmyNormCuda c b (c.mat x)).1
    ([Event.matApply] ++ [Event.reduction g])
  simp only [initState, hK, htr]
  simp

/-- C13.  Whatever the configuration, the object made by the constructor has a
non-null inner solver, the `SimpleCG` built from `Kparam`; hence every call of
`operator()` on it takes the preconditioned branch: the initial direction is `z`, an
inner solve is recorded at initialisation and in every pass, `alpha = rMinvr / pAp`,
`beta = (rMinvr_new − r_new_Minvr_old) / rMinvr_old` and `p ← z + beta·p`; and the
unpreconditioned branch is not executed: `r2_old`, which only that branch assigns,
keeps its initial value `0` in every state of the run. -/
theorem constructor_takes_preconditioned_branch
    (SimpleCG : QudaInvertParam 𝕜 → InnerSolver V)
    (newQudaInvertParam invParam : QudaInvertParam 𝕜) (c : Collaborators 𝕜 V) (x b : V)
    (g : Bool) :
    (PreconCG.ctor SimpleCG newQudaInvertParam invParam).K
      = some (SimpleCG (PreconCG_Kparam newQudaInvertParam invParam)) ∧
    (PreconCG.ctor SimpleCG newQudaInvertParam invParam).K ≠ none ∧
    (initState c (PreconCG.ctor SimpleCG newQudaInvertParam invParam) x b g).p
      = (initState c (PreconCG.ctor SimpleCG newQudaInvertParam invParam) x b g).minvr ∧
    Event.innerSolve false
      ∈ (initState c (PreconCG.ctor SimpleCG newQudaInvertParam invParam) x b g).trace ∧
    (∀ s : State 𝕜 V,
      (loopBody c (PreconCG.ctor SimpleCG newQudaInvertParam invParam) b s).alpha
        = s.rMinvr / c.reDotProductCuda s.p (c.mat s.p) ∧
      (loopBody c (PreconCG.ctor SimpleCG newQudaInvertParam invParam) b s).beta
        = ((loopBody c (PreconCG.ctor SimpleCG newQudaInvertParam invParam) b s).rMinvr
            - (loopBody c (PreconCG.ctor SimpleCG newQudaInvertParam invParam) b
                s).r_new_Minvr_old)
          / (loopBody c (PreconCG.ctor SimpleCG newQudaInvertParam invParam) b s).rMinvr_old ∧
      (loopBody c (PreconCG.ctor SimpleCG newQudaInvertParam invParam) b s).p
        = (loopBody c (PreconCG.ctor SimpleCG newQudaInvertParam invParam) b s).minvr
          + (loopBody c (PreconCG.ctor SimpleCG newQudaInvertParam invParam) b s).beta
            • s.p ∧
      (loopBody c (PreconCG.ctor SimpleCG newQudaInvertParam invParam) b s).r2_old
        = s.r2_old ∧
      Event.innerSolve false
        ∈ (loopBody c (PreconCG.ctor SimpleCG newQudaInvertParam invParam) b s).trace) ∧
    ∀ j, (iterState c (PreconCG.ctor SimpleCG newQudaInvertParam invParam) b
      (initState c (PreconCG.ctor SimpleCG newQudaInvertParam invParam) x b g) j).r2_old
        = 0 := by
  have hK := ctor_K SimpleCG newQudaInvertParam invParam
  refine ⟨hK, by rw [hK]; simp,
    (initState_some c _ _ hK x b g).1, (initState_some_r2_old c _ _ hK x b g).2, ?_, ?_⟩
  · intro s
    obtain ⟨ha, -, -, -, -, -, hbeta, -, hp⟩ := loopBody_some c _ _ hK b s
    refine ⟨ha, hbeta, hp, loopBody_some_r2_old c _ _ hK b s, ?_⟩
    rw [(loopBody_some_trace c _ _ hK b s).1]
    simp
  · intro j
    induction j with
    | zero => exact (initState_some_r2_old c _ _ hK x b g).1
    | succ j ih =>
      show (loopBody c _ b _).r2_old = 0
      rw [loopBody_some_r2_old c _ _ hK b _]
      exact ih

end Constructed

end quda
